import Mathlib

/-!
Verification development for the IEQL engine: a shallow embedding of the
query data model (`src/query/*.rs`), the pattern matcher wrapper
(`src/common/pattern.rs`), the multi-query optimizer
(`QueryGroup::compile` in `src/query/query.rs`) and the per-document
evaluation pipeline (`src/scan/scanner.rs`), together with theorems about
the behaviour of those functions.

The external `regex` crate is modelled abstractly: a compiled regex is an
opaque leftmost `find` function, a regex engine is a deterministic map
from pattern strings to compiled regexes (`none` models a pattern that
fails to compile).  `is_match` agrees with `find`'s success, as the crate
documents.  Everything written by the repository itself is translated
directly from the source.
-/

namespace IEQL

/-- Model of a compiled regex from the external `regex` crate:
`find s` returns the byte-offset span `(start, end)` of the leftmost
match of the regex in `s`, or `none` when the regex does not match. -/
structure Regex where
  find : String → Option (Nat × Nat)

/-- `Regex::is_match`: the `regex` crate documents that `is_match`
holds exactly when `find` returns a match. -/
def Regex.is_match (r : Regex) (s : String) : Bool :=
  (r.find s).isSome

/-- Model of the `regex` crate's front end: `compileRegex` is the
deterministic compilation map (`Regex::new`), `escape` is
`regex::escape`.  The two `empty_*` fields record the crate's documented
behaviour of the empty pattern `""` (it compiles, and it matches every
haystack with an empty match at offset 0); that behaviour is relied upon
by `From<CompiledQuery> for CompiledQueryGroup`, which unwraps
`RegexSet::new(vec![""])`. -/
structure RegexEngine where
  compileRegex : String → Option Regex
  escape : String → String
  empty_some : (compileRegex "").isSome
  empty_matches : ∀ r s, compileRegex "" = some r → r.find s = some (0, 0)

/-- Model of `regex::RegexSet`: the list of compiled member patterns. -/
structure RegexSet where
  patterns : List Regex

/-- Effectful map over `Option`: `some` of the list of results when
every application succeeds, `none` as soon as one fails. -/
def mapMOption (f : α → Option β) : List α → Option (List β)
  | [] => some []
  | a :: rest =>
    match f a with
    | none => none
    | some b => (mapMOption f rest).map (b :: ·)

/-- `RegexSet::new`: compiles every member pattern; fails when any
member fails to compile. -/
def RegexSet.new (E : RegexEngine) (l : List String) : Option RegexSet :=
  (mapMOption E.compileRegex l).map RegexSet.mk

/-- `RegexSet::matches(...).into_iter()`: the indices of the member
patterns that occur in the haystack, in ascending pattern order. -/
def RegexSet.matchIndices (rs : RegexSet) (s : String) : List Nat :=
  (rs.patterns.enum.filter (fun pr => pr.2.is_match s)).map Prod.fst

/-- `Issue` (src/common/validation.rs): severity plus human-readable
message. -/
inductive Issue where
  | Warning (msg : String)
  | Error (msg : String)
deriving DecidableEq

/-- Whether an issue has `Error` severity. -/
def Issue.isError : Issue → Bool
  | .Error _ => true
  | .Warning _ => false

/-- `PatternKind` (src/common/pattern.rs). -/
inductive PatternKind where
  | RegEx
  | Raw
deriving DecidableEq

/-- `Pattern` (src/common/pattern.rs). -/
structure Pattern where
  content : String
  kind : PatternKind
deriving DecidableEq

/-- `PatternMatch` (src/common/pattern.rs): an excerpt plus the
(start-inclusive, end-exclusive) span of the match within it. -/
structure PatternMatch where
  excerpt : String
  relevant : Nat × Nat
deriving DecidableEq

/-- `CompiledPattern` (src/common/pattern.rs). -/
structure CompiledPattern where
  regex : Regex

/-- `Pattern::get_as_safe_regex` (src/common/pattern.rs). -/
def Pattern.get_as_safe_regex (E : RegexEngine) (p : Pattern) : String :=
  match p.kind with
  | .RegEx => p.content
  | .Raw => E.escape p.content

/-- `CompilableTo<CompiledPattern> for Pattern` (src/common/pattern.rs). -/
def Pattern.compile (E : RegexEngine) (p : Pattern) : Except Issue CompiledPattern :=
  match p.kind with
  | .Raw =>
    match E.compileRegex (E.escape p.content) with
    | some r => .ok ⟨r⟩
    | none => .error (.Error "escaped regex literal could not compile")
  | .RegEx =>
    match E.compileRegex p.content with
    | some r => .ok ⟨r⟩
    | none => .error (.Error "regex could not compile")

/-- `CompiledPattern::quick_check` (src/common/pattern.rs). -/
def CompiledPattern.quick_check (cp : CompiledPattern) (other : String) : Bool :=
  cp.regex.is_match other

/-- `CompiledPattern::full_check` (src/common/pattern.rs). -/
def CompiledPattern.full_check (cp : CompiledPattern) (other : String) : Option PatternMatch :=
  match cp.regex.find other with
  | some finding => some { excerpt := other, relevant := finding }
  | none => none

/-- `ScopeContent` (src/query/scope.rs). -/
inductive ScopeContent where
  | Raw
  | Text
deriving DecidableEq

/-- `Scope` (src/query/scope.rs). -/
structure Scope where
  pattern : Pattern
  content : ScopeContent
deriving DecidableEq

/-- `CompiledScope` (src/query/scope.rs). -/
structure CompiledScope where
  pattern : CompiledPattern
  content : ScopeContent

/-- `CompilableTo<CompiledScope> for Scope` (src/query/scope.rs). -/
def Scope.compile (E : RegexEngine) (s : Scope) : Except Issue CompiledScope :=
  match s.pattern.compile E with
  | .ok compiled_pattern => .ok ⟨compiled_pattern, s.content⟩
  | .error issue => .error issue

/-- `Trigger` (src/query/trigger.rs). -/
structure Trigger where
  pattern : Pattern
  id : String
deriving DecidableEq

/-- `CompiledTrigger` (src/query/trigger.rs). -/
structure CompiledTrigger where
  pattern : CompiledPattern
  id : String

/-- `CompilableTo<CompiledTrigger> for Trigger` (src/query/trigger.rs). -/
def Trigger.compile (E : RegexEngine) (t : Trigger) : Except Issue CompiledTrigger :=
  match t.pattern.compile E with
  | .ok compiled_pattern => .ok ⟨compiled_pattern, t.id⟩
  | .error issue => .error issue

/-- `CompiledTrigger::quick_check` (src/query/trigger.rs). -/
def CompiledTrigger.quick_check (t : CompiledTrigger) (other : String) : Bool :=
  t.pattern.quick_check other

/-- `CompiledTrigger::full_check` (src/query/trigger.rs). -/
def CompiledTrigger.full_check (t : CompiledTrigger) (other : String) : Option PatternMatch :=
  t.pattern.full_check other

mutual

/-- `Threshold` (src/query/threshold.rs): a recursive k-of-n boolean
composition with optional inversion. -/
inductive Threshold where
  | mk (considers : List ThresholdConsideration) (requires : Nat) (inverse : Bool) : Threshold

/-- `ThresholdConsideration` (src/query/threshold.rs). -/
inductive ThresholdConsideration where
  | Trigger (id : String) : ThresholdConsideration
  | NestedThreshold (t : Threshold) : ThresholdConsideration

end

/-- The `considers` field of a `Threshold`. -/
def Threshold.considers : Threshold → List ThresholdConsideration
  | .mk c _ _ => c

/-- The `requires` field of a `Threshold`. -/
def Threshold.requiredCount : Threshold → Nat
  | .mk _ r _ => r

/-- The `inverse` field of a `Threshold`. -/
def Threshold.inverse : Threshold → Bool
  | .mk _ _ i => i

mutual

/-- `Threshold::evaluate` (src/query/threshold.rs): counts the considers
that evaluate to true, compares against `requires`, and applies the
inversion; fails on the first trigger id missing from the map. -/
def Threshold.evaluate (t : Threshold) (triggers : String → Option Bool) : Except Issue Bool :=
  match t with
  | .mk considers req inv =>
    match evalConsiders considers triggers with
    | .error issue => .error issue
    | .ok matched =>
      let does_match := decide (req ≤ matched)
      .ok (if inv then !does_match else does_match)

/-- The loop body of `Threshold::evaluate`: evaluates a single
consideration to a boolean. -/
def evalConsideration (c : ThresholdConsideration) (triggers : String → Option Bool) :
    Except Issue Bool :=
  match c with
  | .Trigger id =>
    match triggers id with
    | some res => .ok res
    | none => .error (.Error ("unable to find trigger `" ++ id ++ "` in given triggers"))
  | .NestedThreshold th => th.evaluate triggers

/-- The accumulation loop of `Threshold::evaluate`: the number of
considerations that evaluate to true, left to right, propagating the
first failure. -/
def evalConsiders (cs : List ThresholdConsideration) (triggers : String → Option Bool) :
    Except Issue Nat :=
  match cs with
  | [] => .ok 0
  | c :: rest =>
    match evalConsideration c triggers with
    | .error issue => .error issue
    | .ok b =>
      match evalConsiders rest triggers with
      | .error issue => .error issue
      | .ok n => .ok (if b then n + 1 else n)

end

/-- `ResponseKind` (src/query/response.rs). -/
inductive ResponseKind where
  | Full
  | Partial
deriving DecidableEq

/-- `ResponseItem` (src/query/response.rs). -/
inductive ResponseItem where
  | Url
  | Mime
  | Domain
  | Excerpt
  | FullContent
deriving DecidableEq

/-- `Response` (src/query/response.rs). -/
structure Response where
  kind : ResponseKind
  include' : List ResponseItem
deriving DecidableEq

/-- The `{:?}` rendering of a `ResponseItem`, used in validation
messages. -/
def ResponseItem.debugName : ResponseItem → String
  | .Url => "Url"
  | .Mime => "Mime"
  | .Domain => "Domain"
  | .Excerpt => "Excerpt"
  | .FullContent => "FullContent"

/-- `Validatable for Response` (src/query/response.rs): `Partial`
responses may not include `Excerpt` or `Url`. -/
def Response.validate (r : Response) : Option (List Issue) :=
  let issues : List Issue :=
    if r.kind = ResponseKind.Partial then
      (r.include'.filter (fun item => item = ResponseItem.Excerpt ∨ item = ResponseItem.Url)).map
        (fun item =>
          Issue.Error ("include `" ++ item.debugName ++ "` is not allowed in partial responses"))
    else []
  if issues.length = 0 then none else some issues

/-- `Query` (src/query/query.rs). -/
structure Query where
  response : Response
  scope : Scope
  threshold : Threshold
  triggers : List Trigger
  id : Option String

/-- `CompiledQuery` (src/query/query.rs). -/
structure CompiledQuery where
  response : Response
  scope : CompiledScope
  threshold : Threshold
  triggers : List CompiledTrigger
  id : Option String

/-- The trigger-compilation loop of `Query::compile`: compiles every
trigger, propagating the first failure. -/
def compileTriggers (E : RegexEngine) : List Trigger → Except Issue (List CompiledTrigger)
  | [] => .ok []
  | t :: rest =>
    match t.compile E with
    | .error issue => .error issue
    | .ok ct =>
      match compileTriggers E rest with
      | .error issue => .error issue
      | .ok cts => .ok (ct :: cts)

/-- `CompilableTo<CompiledQuery> for Query` (src/query/query.rs). -/
def Query.compile (E : RegexEngine) (q : Query) : Except Issue CompiledQuery :=
  match q.scope.compile E with
  | .error issue => .error issue
  | .ok scope =>
    match compileTriggers E q.triggers with
    | .error issue => .error issue
    | .ok triggers => .ok ⟨q.response, scope, q.threshold, triggers, q.id⟩

/-- The trigger map built by `Validatable for Query` (src/query/query.rs):
every trigger id mapped to `false`; later inserts overwrite earlier
ones. -/
def allFalseMap (triggers : List Trigger) : String → Option Bool :=
  triggers.foldl (fun m t => fun x => if x = t.id then some false else m x) (fun _ => none)

/-- `Validatable for Query` (src/query/query.rs): records a compilation
failure, response issues, and either the dangling-reference error or the
matches-on-nothing warning from evaluating the threshold on the
all-false trigger map. -/
def Query.validate (E : RegexEngine) (q : Query) : Option (List Issue) :=
  let issues : List Issue := []
  let issues := issues ++
    (match q.compile E with
     | .ok _ => []
     | .error issue => [issue])
  let issues := issues ++
    (match q.response.validate with
     | some problems => problems
     | none => [])
  let issues := issues ++
    (match q.threshold.evaluate (allFalseMap q.triggers) with
     | .ok value =>
       if value then
         [Issue.Warning
           "query will match if all triggers do not match; this can be dangerous in certain situations"]
       else []
     | .error issue => [issue])
  if issues.length > 0 then some issues else none

/-- `CompiledDocument` (src/input/document.rs): the post-compilation
form of a document, as consumed by the scanners. -/
structure CompiledDocument where
  url : Option String
  raw : String
  mime : Option String
  text : String
  domain : Option String
deriving DecidableEq

/-- `CompiledDocument::content` (src/input/document.rs). -/
def CompiledDocument.content (d : CompiledDocument) (c : ScopeContent) : String :=
  match c with
  | .Raw => d.raw
  | .Text => d.text

/-- `OutputKind` (src/output/output.rs). -/
inductive OutputKind where
  | Full
  | Partial
deriving DecidableEq

/-- `OutputItem` (src/output/output.rs). -/
inductive OutputItem where
  | Url (u : Option String)
  | Mime (m : Option String)
  | Domain (d : Option String)
  | Excerpt (e : List PatternMatch)
  | FullContent (c : Option String)
deriving DecidableEq

/-- `Output` (src/output/output.rs). -/
structure Output where
  items : List OutputItem
  kind : OutputKind
  id : Option String
  query_id : Option String
deriving DecidableEq

/-- `OutputBatch` (src/output/output.rs). -/
structure OutputBatch where
  outputs : List Output
deriving DecidableEq

/-- `OutputBatch::merge_with` (src/output/output.rs). -/
def OutputBatch.merge_with (b : OutputBatch) (other : OutputBatch) : OutputBatch :=
  ⟨b.outputs ++ other.outputs⟩

/-- `Output::new` (src/output/output.rs): assembles the output items
from the document, the matching query's response, and the collected
pattern matches. -/
def Output.new (document : CompiledDocument) (query : CompiledQuery)
    (matchList : List PatternMatch) (id : Option String) : Output :=
  let kind := match query.response.kind with
    | .Full => OutputKind.Full
    | .Partial => OutputKind.Partial
  let items := query.response.include'.map (fun item =>
    match item with
    | .Domain => OutputItem.Domain document.domain
    | .Mime => OutputItem.Mime document.mime
    | .Url => OutputItem.Url document.url
    | .Excerpt => OutputItem.Excerpt matchList
    | .FullContent => OutputItem.FullContent (some document.raw))
  ⟨items, kind, id, query.id⟩

/-- The trigger loop of `Scanner::scan_single for CompiledQuery`
(src/scan/scanner.rs): builds the id → matched map and the list of
`PatternMatch`es; `none` models the early `return` taken when
`full_check` disagrees with `quick_check`. -/
def triggerPass : List CompiledTrigger → String → (String → Option Bool) → List PatternMatch →
    Option ((String → Option Bool) × List PatternMatch)
  | [], _, m, results => some (m, results)
  | t :: rest, input, m, results =>
    let does_match := t.quick_check input
    if does_match then
      match t.full_check input with
      | some value =>
        triggerPass rest input (fun x => if x = t.id then some does_match else m x)
          (results ++ [value])
      | none => none
    else
      triggerPass rest input (fun x => if x = t.id then some does_match else m x) results

/-- `Scanner::scan_single for CompiledQuery` (src/scan/scanner.rs):
scope gate on the URL, trigger pass on the scoped content, threshold
evaluation, output assembly. -/
def CompiledQuery.scan_single (q : CompiledQuery) (document : CompiledDocument) : OutputBatch :=
  let url := document.url.getD ""
  if !(q.scope.pattern.quick_check url) then ⟨[]⟩
  else
    let input := document.content q.scope.content
    match triggerPass q.triggers input (fun _ => none) [] with
    | none => ⟨[]⟩
    | some (hitMap, match_results) =>
      match q.threshold.evaluate hitMap with
      | .error _ => ⟨[]⟩
      | .ok evaluation =>
        if evaluation then ⟨[Output.new document q match_results none]⟩
        else ⟨[]⟩

/-- `CompiledQueryGroup` (src/query/query.rs). -/
structure CompiledQueryGroup where
  queries : List CompiledQuery
  regex_collected : RegexSet
  regex_collected_query_index : List Nat
  always_run_queries : List CompiledQuery
  regex_feed : ScopeContent

/-- `QueryGroup` (src/query/query.rs). -/
structure QueryGroup where
  queries : List Query

mutual

/-- `recursively_analyze_threshold` (inside `QueryGroup::compile`,
src/query/query.rs): returns the trigger ids referenced transitively by
the threshold, and whether the query is an always-run (some level has
`inverse` set or `requires == 0`). -/
def recursively_analyze_threshold (t : Threshold) : List String × Bool :=
  match t with
  | .mk considers req inv =>
    let nested := analyzeConsiders considers
    (nested.1, nested.2 || (inv || decide (req = 0)))

/-- One iteration of the loop in `recursively_analyze_threshold`. -/
def analyzeConsideration (c : ThresholdConsideration) : List String × Bool :=
  match c with
  | .Trigger id => ([id], false)
  | .NestedThreshold nested_threshold => recursively_analyze_threshold nested_threshold

/-- The loop of `recursively_analyze_threshold` over the considers
list. -/
def analyzeConsiders (cs : List ThresholdConsideration) : List String × Bool :=
  match cs with
  | [] => ([], false)
  | c :: rest =>
    let first := analyzeConsideration c
    let later := analyzeConsiders rest
    (first.1 ++ later.1, first.2 || later.2)

end

/-- The per-query body of the loop in `QueryGroup::compile`
(src/query/query.rs), carried out over the whole query list with the
four accumulators `queries`, `sub_regexes`, `sub_regexes_index` and
`always_runs`. -/
def compileGroupAux (E : RegexEngine) :
    List Query → List CompiledQuery → List String → List Nat → List CompiledQuery →
    Except Issue (List CompiledQuery × List String × List Nat × List CompiledQuery)
  | [], queries, sub_regexes, sub_regexes_index, always_runs =>
    .ok (queries, sub_regexes, sub_regexes_index, always_runs)
  | query :: rest, queries, sub_regexes, sub_regexes_index, always_runs =>
    match query.compile E with
    | .error issue => .error issue
    | .ok compiled_query =>
      let analysis := recursively_analyze_threshold query.threshold
      if analysis.2 || decide (query.scope.content ≠ ScopeContent.Text) then
        compileGroupAux E rest queries sub_regexes sub_regexes_index
          (always_runs ++ [compiled_query])
      else
        let query_index := queries.length
        let new_regexes :=
          (query.triggers.filter (fun t => decide (t.id ∈ analysis.1))).map
            (fun t => t.pattern.get_as_safe_regex E)
        compileGroupAux E rest (queries ++ [compiled_query]) (sub_regexes ++ new_regexes)
          (sub_regexes_index ++ List.replicate new_regexes.length query_index) always_runs

/-- `CompilableTo<CompiledQueryGroup> for QueryGroup`
(src/query/query.rs): compiles every query, splits always-run queries
off, collects the relevant trigger patterns into the shared
`RegexSet`, and records the owning query of each collected pattern.
The chosen `optimized_content` is `ScopeContent::Text`. -/
def QueryGroup.compile (E : RegexEngine) (g : QueryGroup) : Except Issue CompiledQueryGroup :=
  match compileGroupAux E g.queries [] [] [] [] with
  | .error issue => .error issue
  | .ok (queries, sub_regexes, sub_regexes_index, always_runs) =>
    match RegexSet.new E sub_regexes with
    | none => .error (Issue.Error "unable to compile master regex set")
    | some regex_set =>
      .ok ⟨queries, regex_set, sub_regexes_index, always_runs, ScopeContent.Text⟩

/-- `From<CompiledQuery> for CompiledQueryGroup` (src/query/query.rs):
the trivial group `{ queries: [], regex_collected: RegexSet::new([""]),
regex_collected_query_index: [], always_run_queries: [query],
regex_feed: Raw }`.  The `unwrap` of `RegexSet::new(vec![""])` is
discharged by the engine's `empty_some` guarantee. -/
def CompiledQueryGroup.fromQuery (E : RegexEngine) (query : CompiledQuery) :
    CompiledQueryGroup :=
  ⟨[], ⟨[(E.compileRegex "").get E.empty_some]⟩, [], [query], ScopeContent.Raw⟩

/-- The construction of `queries_to_run` in
`Scanner::scan_single for CompiledQueryGroup` (src/scan/scanner.rs):
each firing pattern index is mapped through
`regex_collected_query_index`; `none` models the first defensive early
`return` (an index with no entry). -/
def candidateTargets (g : CompiledQueryGroup) (d : CompiledDocument) : Option (List Nat) :=
  mapMOption (fun match_item => g.regex_collected_query_index[match_item]?)
    (g.regex_collected.matchIndices (d.content g.regex_feed))

/-- The candidate loop of `Scanner::scan_single for CompiledQueryGroup`
(src/scan/scanner.rs), iterating the `queries_to_run` set in the given
order; `none` models the second defensive early `return` (a candidate
index with no query). -/
def runCandidates (g : CompiledQueryGroup) (d : CompiledDocument) :
    List Nat → OutputBatch → Option OutputBatch
  | [], acc => some acc
  | query_index :: rest, acc =>
    match g.queries[query_index]? with
    | none => none
    | some query => runCandidates g d rest (acc.merge_with (query.scan_single d))

/-- `Scanner::scan_single for CompiledQueryGroup` (src/scan/scanner.rs).
`queries_to_run` is a `HashSet<usize>` whose iteration order is
unspecified; the model therefore takes the enumeration `order` of that
set as a parameter (see `IsValidOrder`). -/
def CompiledQueryGroup.scan_single_with (g : CompiledQueryGroup) (order : List Nat)
    (d : CompiledDocument) : OutputBatch :=
  match candidateTargets g d with
  | none => ⟨[]⟩
  | some _ =>
    match runCandidates g d order ⟨[]⟩ with
    | none => ⟨[]⟩
    | some output_batch =>
      g.always_run_queries.foldl (fun b query => b.merge_with (query.scan_single d)) output_batch

/-- The enumeration orders of `queries_to_run` that a `HashSet<usize>`
can produce: any duplicate-free enumeration of exactly the collected
target indices.  When candidate collection takes the early return the
loop body never runs, so only the empty order is relevant. -/
def IsValidOrder (g : CompiledQueryGroup) (d : CompiledDocument) (order : List Nat) : Prop :=
  match candidateTargets g d with
  | some cs => order.Nodup ∧ (∀ i ∈ order, i ∈ cs) ∧ (∀ i ∈ cs, i ∈ order)
  | none => order = []

/-! ### A concrete regex engine for witnesses

`litEngine` interprets every pattern string as a literal substring and
finds its leftmost occurrence.  On `Raw` patterns whose content needs no
escaping this coincides with the behaviour of the real `regex` crate, so
it serves as the concrete engine for all witness computations. -/

/-- Leftmost occurrence of `needle` in `hay`, reporting offsets shifted
by `i`: the span `(start, start + needle.length)` of the first position
where `needle` is a prefix of the remaining haystack. -/
def litFind (needle : List Char) (i : Nat) (hay : List Char) : Option (Nat × Nat) :=
  if needle.isPrefixOf hay then some (i, i + needle.length)
  else
    match hay with
    | [] => none
    | _ :: rest => litFind needle (i + 1) rest

/-- The literal matcher for a pattern string. -/
def litRegex (pat : String) : Regex :=
  ⟨fun hay => litFind pat.data 0 hay.data⟩

/-- The literal-substring engine: every pattern compiles, escaping is
the identity, and the empty pattern matches every haystack at `(0, 0)`. -/
def litEngine : RegexEngine where
  compileRegex := fun s => some (litRegex s)
  escape := id
  empty_some := rfl
  empty_matches := by
    intro r s h
    injection h with h'
    subst h'
    show litFind [] 0 s.data = some (0, 0)
    unfold litFind
    simp [List.isPrefixOf]

/-! ### Specification-side reference definitions

These definitions follow the spec's words (spec §4.2, §4.3) rather than
the source, and are compared with the source-derived definitions in the
theorems below. -/

mutual

/-- Spec §4.3: a threshold is "inversion-tainted" when the top-level
`inverse` is true, or `requires == 0`, or any nested threshold is
inversion-tainted. -/
def inversionTainted (t : Threshold) : Bool :=
  match t with
  | .mk considers req inv => inv || decide (req = 0) || anyConsiderTainted considers

/-- Taint of a single consideration: a trigger reference is never
tainted, a nested threshold is tainted when the threshold is. -/
def considerTainted (c : ThresholdConsideration) : Bool :=
  match c with
  | .Trigger _ => false
  | .NestedThreshold t => inversionTainted t

/-- Taint of a considers list: some member is tainted. -/
def anyConsiderTainted (cs : List ThresholdConsideration) : Bool :=
  match cs with
  | [] => false
  | c :: rest => considerTainted c || anyConsiderTainted rest

end

mutual

/-- Spec §4.3: the trigger ids referenced transitively by a threshold,
in depth-first order. -/
def refTriggerIds (t : Threshold) : List String :=
  match t with
  | .mk considers _ _ => refTriggerIdsList considers

/-- The trigger ids referenced transitively by one consideration. -/
def refTriggerIdsCons (c : ThresholdConsideration) : List String :=
  match c with
  | .Trigger id => [id]
  | .NestedThreshold t => refTriggerIds t

/-- The trigger ids referenced transitively by a considers list. -/
def refTriggerIdsList (cs : List ThresholdConsideration) : List String :=
  match cs with
  | [] => []
  | c :: rest => refTriggerIdsCons c ++ refTriggerIdsList rest

end

mutual

/-- Spec §4.2: the reference evaluation of a threshold against a total
view of the trigger results (absent ids read as `false`; the value only
matters when every referenced id is present): the threshold holds iff
the number of true considers reaches `requires`, XORed with
`inverse`. -/
def specHolds (r : String → Option Bool) (t : Threshold) : Bool :=
  match t with
  | .mk considers req inv => (decide (req ≤ specCountTrue r considers)).xor inv

/-- Reference truth value of one consideration. -/
def specConsHolds (r : String → Option Bool) (c : ThresholdConsideration) : Bool :=
  match c with
  | .Trigger id => (r id).getD false
  | .NestedThreshold t => specHolds r t

/-- Reference count of the true considers of a list. -/
def specCountTrue (r : String → Option Bool) (cs : List ThresholdConsideration) : Nat :=
  match cs with
  | [] => 0
  | c :: rest => (if specConsHolds r c then 1 else 0) + specCountTrue r rest

end

/-- Spec §4.3 policy: a query must be moved to `always_run` exactly when
its threshold is inversion-tainted or its scope content differs from the
group's feed channel (`Text`). -/
def isAlwaysQuery (q : Query) : Bool :=
  inversionTainted q.threshold || decide (q.scope.content ≠ ScopeContent.Text)

/-- The pattern strings of a query's triggers whose ids are referenced
transitively by its threshold, in trigger order, rendered as
safe-to-compile regexes. -/
def relevantPatternStrings (E : RegexEngine) (q : Query) : List String :=
  (q.triggers.filter (fun t => decide (t.id ∈ refTriggerIds q.threshold))).map
    (fun t => t.pattern.get_as_safe_regex E)

/-- The (pattern string, owning query index) pairs collected into the
shared regex set for a query list, with the optimized queries numbered
from `k` upward. -/
def expectedPairsFrom (E : RegexEngine) (k : Nat) : List Query → List (String × Nat)
  | [] => []
  | q :: rest =>
    if isAlwaysQuery q then expectedPairsFrom E k rest
    else
      (relevantPatternStrings E q).map (fun s => (s, k)) ++ expectedPairsFrom E (k + 1) rest

/-- Placeholder compiled query (used only to unwrap compilation results
that are proven successful). -/
def dummyCompiledQuery : CompiledQuery :=
  ⟨⟨.Full, []⟩, ⟨⟨⟨fun _ => none⟩⟩, .Raw⟩, .mk [] 0 false, [], none⟩

/-- The compiled form of a query, defaulting to `dummyCompiledQuery` on
failure. -/
def compiledOf (E : RegexEngine) (q : Query) : CompiledQuery :=
  match q.compile E with
  | .ok cq => cq
  | .error _ => dummyCompiledQuery

/-- Placeholder compiled group (used only to unwrap compilation results
that are proven successful). -/
def dummyCompiledQueryGroup : CompiledQueryGroup :=
  ⟨[], ⟨[]⟩, [], [], .Raw⟩

/-- The compiled form of a query group, defaulting to
`dummyCompiledQueryGroup` on failure. -/
def groupCompiledOf (E : RegexEngine) (g : QueryGroup) : CompiledQueryGroup :=
  match g.compile E with
  | .ok cg => cg
  | .error _ => dummyCompiledQueryGroup

/-- The final trigger-hit map produced by the trigger loop of
`CompiledQuery::scan_single`: each trigger inserts its `quick_check`
result under its id, later inserts overwriting earlier ones. -/
def hitMapOf (ts : List CompiledTrigger) (input : String) (m : String → Option Bool) :
    String → Option Bool :=
  ts.foldl (fun m t => fun x => if x = t.id then some (t.quick_check input) else m x) m

/-- The outputs contributed by the candidate query at index `i` of a
group, empty when the index is invalid. -/
def queryOutputsAt (g : CompiledQueryGroup) (d : CompiledDocument) (i : Nat) : List Output :=
  match g.queries[i]? with
  | some q => (q.scan_single d).outputs
  | none => []

/-- Placeholder query (used only as a `getD` default at indices proven
in range). -/
def dummyQuery : Query :=
  ⟨⟨.Full, []⟩, ⟨⟨"", .Raw⟩, .Raw⟩, .mk [] 0 false, [], none⟩

/-! ### Concrete data for witnesses and counterexamples -/

/-- A trigger named "A" matching the literal `alpha`. -/
def wTrigA : Trigger := ⟨⟨"alpha", .Raw⟩, "A"⟩

/-- A trigger named "B" matching the literal `beta`. -/
def wTrigB : Trigger := ⟨⟨"beta", .Raw⟩, "B"⟩

/-- An optimizable query (no inversion, `Text` scope content) over
trigger "A". -/
def wQ0 : Query :=
  ⟨⟨.Full, [.Url]⟩, ⟨⟨"", .Raw⟩, .Text⟩, .mk [.Trigger "A"] 1 false, [wTrigA], some "q0"⟩

/-- An optimizable query (no inversion, `Text` scope content) over
trigger "B". -/
def wQ1 : Query :=
  ⟨⟨.Full, [.Url]⟩, ⟨⟨"", .Raw⟩, .Text⟩, .mk [.Trigger "B"] 1 false, [wTrigB], some "q1"⟩

/-- An inversion-tainted query over trigger "A". -/
def wQinv : Query :=
  ⟨⟨.Full, [.Url]⟩, ⟨⟨"", .Raw⟩, .Text⟩, .mk [.Trigger "A"] 1 true, [wTrigA], some "qi"⟩

/-- A group with one optimizable query and one always-run query. -/
def wGroup2 : QueryGroup := ⟨[wQ0, wQinv]⟩

/-- A group with two optimizable queries. -/
def wGroupTwoOpt : QueryGroup := ⟨[wQ0, wQ1]⟩

/-- A document whose text contains both `alpha` and `beta`. -/
def wDocBoth : CompiledDocument :=
  ⟨some "http://x", "alpha beta raw", none, "alpha beta", none⟩

/-- A document whose text contains `alpha` only. -/
def wDocAlpha : CompiledDocument :=
  ⟨some "http://x", "alpha raw", none, "alpha text", none⟩

/-- A query whose patterns compile but whose `Partial` response
illegally includes `Url`. -/
def wQBadResp : Query :=
  ⟨⟨.Partial, [.Url]⟩, ⟨⟨"", .Raw⟩, .Raw⟩, .mk [] 1 false, [], none⟩

/-- A query whose two distinct triggers share the id "A". -/
def wQDup : Query :=
  ⟨⟨.Full, []⟩, ⟨⟨"", .Raw⟩, .Raw⟩, .mk [.Trigger "A"] 1 false,
    [⟨⟨"a", .Raw⟩, "A"⟩, ⟨⟨"b", .Raw⟩, "A"⟩], none⟩

/-- A compiled query whose scope pattern is the literal `x` and whose
threshold matches unconditionally. -/
def wCompiledScopeQuery : CompiledQuery :=
  ⟨⟨.Full, []⟩, ⟨⟨litRegex "x"⟩, .Raw⟩, .mk [] 0 false, [], none⟩

/-- A document without a URL whose content contains `x`. -/
def wDocNoUrl : CompiledDocument := ⟨none, "x here", none, "x here", none⟩

/-! ## Theorems -/

/-- Equation lemma for `Threshold.evaluate`. -/
theorem Threshold.evaluate_mk (considers : List ThresholdConsideration) (req : Nat) (inv : Bool)
    (r : String → Option Bool) :
    Threshold.evaluate (.mk considers req inv) r =
      match evalConsiders considers r with
      | .error issue => .error issue
      | .ok matched => .ok (if inv then !(decide (req ≤ matched)) else decide (req ≤ matched)) := by
  rw [Threshold.evaluate]

mutual

/-- When every transitively referenced id is present in the map,
`Threshold.evaluate` succeeds and computes the reference semantics. -/
theorem evaluate_ok_of_complete (t : Threshold) (r : String → Option Bool)
    (h : ∀ id ∈ refTriggerIds t, (r id).isSome) :
    t.evaluate r = .ok (specHolds r t) := by
  match t with
  | .mk considers req inv =>
    rw [Threshold.evaluate_mk,
      evalConsiders_ok_of_complete considers r (by simpa [refTriggerIds, refTriggerIdsList] using h)]
    simp only [specHolds]
    cases inv <;> simp [Bool.xor]

/-- Consideration-level version of `evaluate_ok_of_complete`. -/
theorem evalConsideration_ok_of_complete (c : ThresholdConsideration) (r : String → Option Bool)
    (h : ∀ id ∈ refTriggerIdsCons c, (r id).isSome) :
    evalConsideration c r = .ok (specConsHolds r c) := by
  match c with
  | .Trigger id =>
    have := h id (by simp [refTriggerIdsCons])
    cases hr : r id with
    | none => rw [hr] at this; simp at this
    | some b => simp [evalConsideration, specConsHolds, hr]
  | .NestedThreshold th =>
    have := evaluate_ok_of_complete th r (by simpa [refTriggerIdsCons] using h)
    simp [evalConsideration, specConsHolds, this]

/-- List-level version of `evaluate_ok_of_complete`. -/
theorem evalConsiders_ok_of_complete (cs : List ThresholdConsideration) (r : String → Option Bool)
    (h : ∀ id ∈ refTriggerIdsList cs, (r id).isSome) :
    evalConsiders cs r = .ok (specCountTrue r cs) := by
  match cs with
  | [] => simp [evalConsiders, specCountTrue]
  | c :: rest =>
    rw [evalConsiders,
      evalConsideration_ok_of_complete c r
        (fun id hid => h id (by simp [refTriggerIdsList]; exact Or.inl hid)),
      evalConsiders_ok_of_complete rest r
        (fun id hid => h id (by simp [refTriggerIdsList]; exact Or.inr hid))]
    cases hb : specConsHolds r c <;> simp [specCountTrue, hb, Nat.add_comm]

end

mutual

/-- When some transitively referenced id is absent from the map,
`Threshold.evaluate` fails. -/
theorem evaluate_error_of_missing (t : Threshold) (r : String → Option Bool)
    (h : ∃ id ∈ refTriggerIds t, r id = none) :
    ∃ i, t.evaluate r = .error i := by
  match t with
  | .mk considers req inv =>
    obtain ⟨i, hi⟩ :=
      evalConsiders_error_of_missing considers r (by simpa [refTriggerIds, refTriggerIdsList] using h)
    exact ⟨i, by simp [Threshold.evaluate_mk, hi]⟩

/-- Consideration-level version of `evaluate_error_of_missing`. -/
theorem evalConsideration_error_of_missing (c : ThresholdConsideration) (r : String → Option Bool)
    (h : ∃ id ∈ refTriggerIdsCons c, r id = none) :
    ∃ i, evalConsideration c r = .error i := by
  match c with
  | .Trigger tid =>
    obtain ⟨id, hid, hnone⟩ := h
    simp [refTriggerIdsCons] at hid
    subst hid
    exact ⟨Issue.Error ("unable to find trigger `" ++ id ++ "` in given triggers"),
      by simp [evalConsideration, hnone]⟩
  | .NestedThreshold th =>
    obtain ⟨i, hi⟩ := evaluate_error_of_missing th r (by simpa [refTriggerIdsCons] using h)
    exact ⟨i, by simp [evalConsideration, hi]⟩

/-- List-level version of `evaluate_error_of_missing`. -/
theorem evalConsiders_error_of_missing (cs : List ThresholdConsideration)
    (r : String → Option Bool) (h : ∃ id ∈ refTriggerIdsList cs, r id = none) :
    ∃ i, evalConsiders cs r = .error i := by
  match cs with
  | [] => simp [refTriggerIdsList] at h
  | c :: rest =>
    obtain ⟨id, hid, hnone⟩ := h
    simp only [refTriggerIdsList, List.mem_append] at hid
    rcases hid with h1 | h2
    · obtain ⟨i, hi⟩ := evalConsideration_error_of_missing c r ⟨id, h1, hnone⟩
      exact ⟨i, by simp [evalConsiders, hi]⟩
    · cases hc : evalConsideration c r with
      | error i => exact ⟨i, by simp [evalConsiders, hc]⟩
      | ok b =>
        obtain ⟨i, hi⟩ := evalConsiders_error_of_missing rest r ⟨id, h2, hnone⟩
        exact ⟨i, by simp [evalConsiders, hc, hi]⟩

end

/-- **C3**: `Threshold::evaluate` returns an error exactly when some
transitively referenced trigger id is absent from the results map, and
otherwise returns `Ok(b)` where `b` is (number of true considers `≥`
`requires`) XOR `inverse`; in particular, with empty `considers`,
`requires = 0` yields `Ok(true)` and `requires > 0` yields `Ok(false)`
(both before inversion, i.e. with `inverse = false`). -/
theorem threshold_evaluate_spec (t : Threshold) (r : String → Option Bool) :
    (match t.evaluate r with
     | .error _ => ∃ id ∈ refTriggerIds t, r id = none
     | .ok b =>
       (∀ id ∈ refTriggerIds t, (r id).isSome) ∧
         b = (decide (t.requiredCount ≤ specCountTrue r t.considers)).xor t.inverse) ∧
    Threshold.evaluate (.mk [] 0 false) r = .ok true ∧
    (∀ k, 0 < k → Threshold.evaluate (.mk [] k false) r = .ok false) := by
  refine ⟨?_, ?_, ?_⟩
  · by_cases hcomp : ∀ id ∈ refTriggerIds t, (r id).isSome
    · rw [evaluate_ok_of_complete t r hcomp]
      obtain ⟨cs, req, inv⟩ := t
      refine ⟨hcomp, ?_⟩
      simp [specHolds, Threshold.requiredCount, Threshold.considers, Threshold.inverse]
    · have hmiss : ∃ id ∈ refTriggerIds t, r id = none := by
        push_neg at hcomp
        obtain ⟨id, hid, hnot⟩ := hcomp
        exact ⟨id, hid, Option.not_isSome_iff_eq_none.mp hnot⟩
      obtain ⟨i, hi⟩ := evaluate_error_of_missing t r hmiss
      rw [hi]
      exact hmiss
  · simp [Threshold.evaluate_mk, evalConsiders]
  · intro k hk
    simp [Threshold.evaluate_mk, evalConsiders, Nat.pos_iff_ne_zero.mp hk]

/-- Witness for C3: evaluating the empty threshold with `requires = 0`
on the empty map yields `Ok(true)`. -/
theorem threshold_evaluate_spec_witness :
    Threshold.evaluate (.mk [] 0 false) (fun _ => none) = .ok true :=
  (threshold_evaluate_spec (.mk [] 0 false) (fun _ => none)).2.1

mutual

/-- The source's `recursively_analyze_threshold` computes exactly the
spec-side transitively referenced ids and the spec-side
inversion-taint. -/
theorem analyze_eq (t : Threshold) :
    recursively_analyze_threshold t = (refTriggerIds t, inversionTainted t) := by
  match t with
  | .mk considers req inv =>
    rw [recursively_analyze_threshold]
    rw [analyzeConsiders_eq considers]
    simp only [refTriggerIds, inversionTainted, Prod.mk.injEq]
    refine ⟨by trivial, ?_⟩
    cases inv <;> cases h : decide (req = 0) <;> cases anyConsiderTainted considers <;> simp

/-- Consideration-level version of `analyze_eq`. -/
theorem analyzeConsideration_eq (c : ThresholdConsideration) :
    analyzeConsideration c = (refTriggerIdsCons c, considerTainted c) := by
  match c with
  | .Trigger id => rfl
  | .NestedThreshold th =>
    rw [analyzeConsideration, analyze_eq th]
    rfl

/-- List-level version of `analyze_eq`. -/
theorem analyzeConsiders_eq (cs : List ThresholdConsideration) :
    analyzeConsiders cs = (refTriggerIdsList cs, anyConsiderTainted cs) := by
  match cs with
  | [] => rfl
  | c :: rest =>
    rw [analyzeConsiders, analyzeConsideration_eq c, analyzeConsiders_eq rest]
    rfl

end

/-- `mapMOption` succeeds exactly on the pointwise successes. -/
theorem mapMOption_eq_some_iff {f : α → Option β} {l : List α} {res : List β} :
    mapMOption f l = some res ↔ List.Forall₂ (fun a b => f a = some b) l res := by
  induction l generalizing res with
  | nil => cases res <;> simp [mapMOption]
  | cons a rest ih =>
    cases hf : f a with
    | none =>
      simp only [mapMOption, hf]
      constructor
      · intro h; cases h
      · intro h
        cases h with
        | cons hab _ => rw [hf] at hab; cases hab
    | some b =>
      simp only [mapMOption, hf]
      cases res with
      | nil =>
        simp only [Option.map_eq_some']
        constructor
        · rintro ⟨l', _, h⟩; cases h
        · intro h; cases h
      | cons b' res' =>
        rw [List.forall₂_cons]
        constructor
        · intro h
          rw [Option.map_eq_some'] at h
          obtain ⟨l', hl', heq⟩ := h
          cases heq
          exact ⟨hf, ih.mp hl'⟩
        · rintro ⟨hab, hrest⟩
          cases hab.symm.trans hf
          rw [ih.mpr hrest]
          rfl

/-- Mapping `compiledOf` over a list of queries that all compile yields
pointwise successful compilations. -/
theorem forall₂_compiledOf {E : RegexEngine} {l : List Query}
    (h : ∀ q ∈ l, (q.compile E).isOk) :
    List.Forall₂ (fun q cq => q.compile E = .ok cq) l (l.map (compiledOf E)) := by
  induction l with
  | nil => simp
  | cons q rest ih =>
    have hq := h q (by simp)
    rw [List.map_cons, List.forall₂_cons]
    cases hc : q.compile E with
    | error i => rw [hc] at hq; cases hq
    | ok cq =>
      exact ⟨by rw [compiledOf, hc], ih (fun q' hq' => h q' (List.mem_cons_of_mem _ hq'))⟩

/-- When `compileGroupAux` succeeds, every query in the list compiles. -/
theorem compileGroupAux_compiles {E : RegexEngine} {l : List Query}
    {qa : List CompiledQuery} {ra : List String} {ia : List Nat} {aa : List CompiledQuery}
    {res} (h : compileGroupAux E l qa ra ia aa = .ok res) :
    ∀ q ∈ l, (q.compile E).isOk := by
  induction l generalizing qa ra ia aa with
  | nil => simp
  | cons query rest ih =>
    intro q hq
    rw [compileGroupAux] at h
    cases hc : query.compile E with
    | error i => rw [hc] at h; cases h
    | ok cq =>
      rw [hc] at h
      rcases List.mem_cons.mp hq with rfl | hmem
      · rw [hc]; rfl
      · dsimp only at h
        split at h
        · exact ih h q hmem
        · exact ih h q hmem

/-- Closed form of `compileGroupAux` on a list of queries that all
compile: the accumulators are extended with the compiled optimized
queries, the relevant pattern strings with their owning indices, and
the compiled always-run queries. -/
theorem compileGroupAux_closed (E : RegexEngine) (l : List Query)
    (qa : List CompiledQuery) (ra : List String) (ia : List Nat) (aa : List CompiledQuery)
    (h : ∀ q ∈ l, (q.compile E).isOk) :
    compileGroupAux E l qa ra ia aa = .ok
      (qa ++ (l.filter (fun q => !isAlwaysQuery q)).map (compiledOf E),
       ra ++ (expectedPairsFrom E qa.length l).map Prod.fst,
       ia ++ (expectedPairsFrom E qa.length l).map Prod.snd,
       aa ++ (l.filter isAlwaysQuery).map (compiledOf E)) := by
  induction l generalizing qa ra ia aa with
  | nil => simp [compileGroupAux, expectedPairsFrom]
  | cons query rest ih =>
    have hq := h query (by simp)
    have hrest : ∀ q ∈ rest, (q.compile E).isOk :=
      fun q' hq' => h q' (List.mem_cons_of_mem _ hq')
    rw [compileGroupAux]
    cases hc : query.compile E with
    | error i => rw [hc] at hq; cases hq
    | ok cq =>
      have hcof : compiledOf E query = cq := by rw [compiledOf, hc]
      dsimp only
      rw [analyze_eq query.threshold]
      have hunify : ((refTriggerIds query.threshold, inversionTainted query.threshold).2
          || decide (query.scope.content ≠ ScopeContent.Text)) = isAlwaysQuery query := rfl
      rw [hunify]
      have hfilter : (query.triggers.filter
            (fun t => decide (t.id ∈ (refTriggerIds query.threshold,
              inversionTainted query.threshold).1))).map
            (fun t => t.pattern.get_as_safe_regex E) = relevantPatternStrings E query := rfl
      by_cases ha : isAlwaysQuery query = true
      · rw [if_pos ha, ih qa ra ia (aa ++ [cq]) hrest]
        simp [expectedPairsFrom, ha, List.filter_cons, hcof]
      · have ha' : isAlwaysQuery query = false := by simpa using ha
        rw [if_neg ha, ih (qa ++ [cq]) _ _ aa hrest]
        rw [hfilter]
        have hfst : ((relevantPatternStrings E query).map (fun s => (s, qa.length))).map Prod.fst
            = relevantPatternStrings E query := by
          simp [List.map_map, Function.comp_def]
        have hsnd : ((relevantPatternStrings E query).map (fun s => (s, qa.length))).map Prod.snd
            = List.replicate (relevantPatternStrings E query).length qa.length := by
          simp [List.map_map, Function.comp_def]
        simp [expectedPairsFrom, ha', List.filter_cons, hcof, hfst, hsnd,
          List.append_assoc]

/-- Components of a successfully compiled query group, in terms of the
original query list. -/
theorem group_compile_components {E : RegexEngine} {g : QueryGroup} {cg : CompiledQueryGroup}
    (hc : QueryGroup.compile E g = .ok cg) :
    (∀ q ∈ g.queries, (q.compile E).isOk) ∧
    cg.queries = (g.queries.filter (fun q => !isAlwaysQuery q)).map (compiledOf E) ∧
    cg.always_run_queries = (g.queries.filter isAlwaysQuery).map (compiledOf E) ∧
    cg.regex_collected_query_index = (expectedPairsFrom E 0 g.queries).map Prod.snd ∧
    mapMOption E.compileRegex ((expectedPairsFrom E 0 g.queries).map Prod.fst) =
      some cg.regex_collected.patterns ∧
    cg.regex_feed = ScopeContent.Text := by
  rw [QueryGroup.compile] at hc
  cases haux : compileGroupAux E g.queries [] [] [] [] with
  | error i => rw [haux] at hc; cases hc
  | ok res =>
    have hcompiles := compileGroupAux_compiles haux
    have hclosed := compileGroupAux_closed E g.queries [] [] [] [] hcompiles
    rw [haux] at hclosed
    injection hclosed with hres
    subst hres
    rw [haux] at hc
    simp only [List.nil_append, List.length_nil] at hc ⊢
    cases hset : RegexSet.new E ((expectedPairsFrom E 0 g.queries).map Prod.fst) with
    | none => rw [hset] at hc; cases hc
    | some regex_set =>
      rw [hset] at hc
      injection hc with hcg
      subst hcg
      refine ⟨hcompiles, rfl, rfl, rfl, ?_, rfl⟩
      rw [RegexSet.new, Option.map_eq_some'] at hset
      obtain ⟨pats, hpats, hmk⟩ := hset
      rw [hpats]
      cases hmk
      rfl

/-- **C2**: `QueryGroup::compile` places a compiled query into
`always_run_queries` exactly when its threshold is inversion-tainted
(`inverse` or `requires == 0` at some level) or its scope content
differs from the group's feed channel `Text` (`isAlwaysQuery` renders
this condition from the spec's words); every other query goes into
`queries` (both lists in original order, pointwise successfully
compiled); and the shared regex set receives exactly the safe-regex
patterns of the triggers whose ids the threshold references
transitively, each paired in `regex_collected_query_index` with the
owning query's index in `queries` (`expectedPairsFrom`). -/
theorem group_compile_placement (E : RegexEngine) (g : QueryGroup) (cg : CompiledQueryGroup)
    (hc : QueryGroup.compile E g = .ok cg) :
    List.Forall₂ (fun q cq => q.compile E = .ok cq)
        (g.queries.filter isAlwaysQuery) cg.always_run_queries ∧
    List.Forall₂ (fun q cq => q.compile E = .ok cq)
        (g.queries.filter (fun q => !isAlwaysQuery q)) cg.queries ∧
    List.Forall₂ (fun s rg => E.compileRegex s = some rg)
        ((expectedPairsFrom E 0 g.queries).map Prod.fst) cg.regex_collected.patterns ∧
    cg.regex_collected_query_index = (expectedPairsFrom E 0 g.queries).map Prod.snd := by
  obtain ⟨hok, hq, ha, hidx, hset, hfeed⟩ := group_compile_components hc
  refine ⟨?_, ?_, mapMOption_eq_some_iff.mp hset, hidx⟩
  · rw [ha]
    exact forall₂_compiledOf (fun q hq' => hok q (List.mem_of_mem_filter hq'))
  · rw [hq]
    exact forall₂_compiledOf (fun q hq' => hok q (List.mem_of_mem_filter hq'))

/-- Witness for C2: in the two-query group (one optimizable, one
inversion-tainted), the collected pattern index records the single
optimizable query. -/
theorem group_compile_placement_witness :
    (groupCompiledOf litEngine wGroup2).regex_collected_query_index =
      (expectedPairsFrom litEngine 0 wGroup2.queries).map Prod.snd ∧
    (expectedPairsFrom litEngine 0 wGroup2.queries).map Prod.snd = [0] :=
  ⟨(group_compile_placement litEngine wGroup2 (groupCompiledOf litEngine wGroup2) rfl).2.2.2,
    by decide⟩

/-- The owning indices collected for a query list starting at `k` stay
below `k` plus the number of optimized queries. -/
theorem expectedPairsFrom_snd_lt (E : RegexEngine) (k : Nat) (l : List Query) :
    ∀ p ∈ expectedPairsFrom E k l, p.2 < k + (l.filter (fun q => !isAlwaysQuery q)).length := by
  induction l generalizing k with
  | nil => simp [expectedPairsFrom]
  | cons q rest ih =>
    intro p hp
    rw [expectedPairsFrom] at hp
    by_cases ha : isAlwaysQuery q = true
    · rw [if_pos ha] at hp
      have := ih k p hp
      simpa [List.filter_cons, ha] using this
    · have ha' : isAlwaysQuery q = false := by simpa using ha
      rw [if_neg ha] at hp
      rcases List.mem_append.mp hp with h1 | h2
      · obtain ⟨s, hs, rfl⟩ := List.mem_map.mp h1
        simp [List.filter_cons, ha']
      · have := ih (k + 1) p h2
        simp [List.filter_cons, ha'] at this ⊢
        omega

/-- Every reported match index of a regex set is a valid pattern
index. -/
theorem matchIndices_lt (rs : RegexSet) (s : String) :
    ∀ i ∈ rs.matchIndices s, i < rs.patterns.length := by
  intro i hi
  rw [RegexSet.matchIndices] at hi
  obtain ⟨pr, hmem, rfl⟩ := List.mem_map.mp hi
  have h1 := (List.mem_filter.mp hmem).1
  rw [List.mem_enum_iff_getElem?] at h1
  have : (rs.patterns[pr.1]?).isSome := by rw [h1]; rfl
  by_contra hlt
  rw [List.getElem?_eq_none (Nat.le_of_not_lt hlt)] at this
  cases this

/-- `mapMOption` succeeds when every application succeeds. -/
theorem mapMOption_isSome {f : α → Option β} {l : List α} (h : ∀ a ∈ l, (f a).isSome) :
    (mapMOption f l).isSome := by
  induction l with
  | nil => rfl
  | cons a rest ih =>
    have ha := h a (by simp)
    rw [mapMOption]
    cases hf : f a with
    | none => rw [hf] at ha; cases ha
    | some b =>
      have := ih (fun a' ha' => h a' (List.mem_cons_of_mem _ ha'))
      cases hrest : mapMOption f rest with
      | none => rw [hrest] at this; cases this
      | some bs => rfl

/-- A `Forall₂` relation covers every member of its right list. -/
theorem forall₂_mem_right {R : α → β → Prop} {l₁ : List α} {l₂ : List β}
    (h : List.Forall₂ R l₁ l₂) {b : β} (hb : b ∈ l₂) : ∃ a ∈ l₁, R a b := by
  induction h with
  | nil => cases hb
  | cons hR _ ih =>
    rcases List.mem_cons.mp hb with rfl | hb'
    · exact ⟨_, by simp, hR⟩
    · obtain ⟨a, ha, hab⟩ := ih hb'
      exact ⟨a, List.mem_cons_of_mem _ ha, hab⟩

/-- The candidate loop succeeds whenever every index in the iteration
order is a valid query index. -/
theorem runCandidates_isSome {g : CompiledQueryGroup} {d : CompiledDocument}
    {order : List Nat} (h : ∀ i ∈ order, i < g.queries.length) (acc : OutputBatch) :
    (runCandidates g d order acc).isSome := by
  induction order generalizing acc with
  | nil => rfl
  | cons i rest ih =>
    rw [runCandidates, List.getElem?_eq_getElem (h i (by simp))]
    exact ih (fun j hj => h j (List.mem_cons_of_mem _ hj)) _

/-- **C10**: for every group produced by `QueryGroup::compile`,
`regex_collected_query_index` has exactly one entry per collected
pattern and every entry is a valid index into `queries`; consequently
neither defensive lookup-failure branch of
`CompiledQueryGroup::scan_single` can be taken: candidate-target
collection always succeeds, and the candidate loop succeeds for every
enumeration of the collected targets. -/
theorem group_index_invariant (E : RegexEngine) (g : QueryGroup) (cg : CompiledQueryGroup)
    (hc : QueryGroup.compile E g = .ok cg) :
    cg.regex_collected_query_index.length = cg.regex_collected.patterns.length ∧
    (∀ i ∈ cg.regex_collected_query_index, i < cg.queries.length) ∧
    (∀ d : CompiledDocument, (candidateTargets cg d).isSome) ∧
    (∀ d order, IsValidOrder cg d order → (runCandidates cg d order ⟨[]⟩).isSome) := by
  obtain ⟨hok, hq, ha, hidx, hset, hfeed⟩ := group_compile_components hc
  have hlen : cg.regex_collected_query_index.length = cg.regex_collected.patterns.length := by
    have h2 := (mapMOption_eq_some_iff.mp hset).length_eq
    rw [hidx]
    simp only [List.length_map] at h2 ⊢
    exact h2
  have hbound : ∀ i ∈ cg.regex_collected_query_index, i < cg.queries.length := by
    intro i hi
    rw [hidx] at hi
    obtain ⟨p, hp, rfl⟩ := List.mem_map.mp hi
    have := expectedPairsFrom_snd_lt E 0 g.queries p hp
    rw [hq]
    simpa using this
  have hcand : ∀ d : CompiledDocument, (candidateTargets cg d).isSome := by
    intro d
    apply mapMOption_isSome
    intro j hj
    have hjlt : j < cg.regex_collected_query_index.length := by
      rw [hlen]
      exact matchIndices_lt _ _ j hj
    rw [List.getElem?_eq_getElem hjlt]
    rfl
  refine ⟨hlen, hbound, hcand, ?_⟩
  intro d order horder
  rw [IsValidOrder] at horder
  cases hct : candidateTargets cg d with
  | none => have := hcand d; rw [hct] at this; cases this
  | some cs =>
    rw [hct] at horder
    apply runCandidates_isSome
    intro i hi
    have hics : i ∈ cs := horder.2.1 i hi
    rw [candidateTargets] at hct
    obtain ⟨j, _, hji⟩ := forall₂_mem_right (mapMOption_eq_some_iff.mp hct) hics
    exact hbound i (List.getElem?_mem hji)

/-- Witness for C10: on the compiled two-query group, candidate
collection succeeds for the `alpha` document. -/
theorem group_index_invariant_witness :
    (candidateTargets (groupCompiledOf litEngine wGroup2) wDocAlpha).isSome :=
  (group_index_invariant litEngine wGroup2 (groupCompiledOf litEngine wGroup2) rfl).2.2.1
    wDocAlpha

/-- The always-run loop of the group scanner appends the outputs of the
always-run queries, in list order. -/
theorem foldl_merge_eq (qs : List CompiledQuery) (d : CompiledDocument) (b : OutputBatch) :
    qs.foldl (fun b query => b.merge_with (query.scan_single d)) b =
      ⟨b.outputs ++ qs.flatMap fun query => (query.scan_single d).outputs⟩ := by
  induction qs generalizing b with
  | nil => simp
  | cons q rest ih =>
    rw [List.foldl_cons, ih]
    simp [OutputBatch.merge_with]

/-- The candidate loop, on valid indices, appends the outputs of the
indexed queries in iteration order. -/
theorem runCandidates_eq {g : CompiledQueryGroup} {d : CompiledDocument} {order : List Nat}
    (h : ∀ i ∈ order, i < g.queries.length) (acc : OutputBatch) :
    runCandidates g d order acc =
      some ⟨acc.outputs ++ order.flatMap (queryOutputsAt g d)⟩ := by
  induction order generalizing acc with
  | nil => simp [runCandidates]
  | cons i rest ih =>
    have hi := h i (by simp)
    simp only [runCandidates, List.getElem?_eq_getElem hi]
    rw [ih (fun j hj => h j (List.mem_cons_of_mem _ hj))]
    simp [OutputBatch.merge_with, queryOutputsAt, List.getElem?_eq_getElem hi]

/-- Decomposition of the group scanner: when candidate collection
succeeds and every index in the iteration order is valid, the output is
the candidate outputs (in iteration order) followed by the always-run
outputs (in list order). -/
theorem scan_single_with_eq {g : CompiledQueryGroup} {d : CompiledDocument} {order : List Nat}
    {cs : List Nat} (hct : candidateTargets g d = some cs)
    (hlt : ∀ i ∈ order, i < g.queries.length) :
    g.scan_single_with order d =
      ⟨order.flatMap (queryOutputsAt g d) ++
        g.always_run_queries.flatMap fun query => (query.scan_single d).outputs⟩ := by
  rw [CompiledQueryGroup.scan_single_with, hct]
  simp only [runCandidates_eq hlt ⟨[]⟩]
  rw [foldl_merge_eq]
  simp

/-- A trigger whose `quick_check` succeeds has a successful
`full_check` (the matcher's `find` agrees with `is_match`). -/
theorem full_check_isSome_of_quick {t : CompiledTrigger} {input : String}
    (hq : t.quick_check input = true) : ∃ v, t.full_check input = some v := by
  rw [CompiledTrigger.quick_check, CompiledPattern.quick_check, Regex.is_match] at hq
  rw [CompiledTrigger.full_check, CompiledPattern.full_check]
  cases hf : t.pattern.regex.find input with
  | none => rw [hf] at hq; cases hq
  | some f => exact ⟨_, rfl⟩

/-- The trigger loop never takes its defensive early return, and its
final hit map is `hitMapOf`. -/
theorem triggerPass_isSome (ts : List CompiledTrigger) (input : String)
    (m : String → Option Bool) (res : List PatternMatch) :
    ∃ results, triggerPass ts input m res = some (hitMapOf ts input m, results) := by
  induction ts generalizing m res with
  | nil => exact ⟨res, rfl⟩
  | cons t rest ih =>
    have hstep : hitMapOf (t :: rest) input m =
        hitMapOf rest input (fun x => if x = t.id then some (t.quick_check input) else m x) :=
      rfl
    rw [triggerPass, hstep]
    cases hq : t.quick_check input with
    | true =>
      obtain ⟨v, hv⟩ := full_check_isSome_of_quick hq
      simp only [hq, if_true, hv]
      exact ih _ _
    | false =>
      simp only [hq, Bool.false_eq_true, if_false]
      exact ih _ _

/-- When every trigger carrying the id `x` misses, the final hit map
reads `none` or `some false` at `x`. -/
theorem hitMapOf_no_hit {ts : List CompiledTrigger} {input : String}
    {m : String → Option Bool} {x : String} (hm : m x = none ∨ m x = some false)
    (hts : ∀ t ∈ ts, t.id = x → t.quick_check input = false) :
    hitMapOf ts input m x = none ∨ hitMapOf ts input m x = some false := by
  induction ts generalizing m with
  | nil => exact hm
  | cons t rest ih =>
    have hstep : hitMapOf (t :: rest) input m =
        hitMapOf rest input (fun x => if x = t.id then some (t.quick_check input) else m x) :=
      rfl
    rw [hstep]
    apply ih
    · by_cases hx : x = t.id
      · right
        rw [if_pos hx, hts t (by simp) hx.symm]
      · rw [if_neg hx]
        exact hm
    · exact fun t' ht' => hts t' (List.mem_cons_of_mem _ ht')

mutual

/-- A non-inversion-tainted threshold whose referenced triggers all
read `none` or `some false` does not hold under the reference
semantics. -/
theorem specHolds_false_of_untainted (t : Threshold) (m : String → Option Bool)
    (ht : inversionTainted t = false)
    (hm : ∀ id ∈ refTriggerIds t, m id = none ∨ m id = some false) :
    specHolds m t = false := by
  match t with
  | .mk considers req inv =>
    rw [inversionTainted] at ht
    have hinv : inv = false := by
      cases inv
      · rfl
      · simp at ht
    have hreq : req ≠ 0 := by
      intro h0
      rw [h0] at ht
      simp at ht
    have hany : anyConsiderTainted considers = false := by
      cases hac : anyConsiderTainted considers
      · rfl
      · rw [hac] at ht; simp at ht
    have hcount : specCountTrue m considers = 0 :=
      specCountTrue_zero_of_untainted considers m hany
        (by simpa [refTriggerIds, refTriggerIdsList] using hm)
    rw [specHolds, hcount, hinv]
    simp
    omega

/-- Consideration-level version of `specHolds_false_of_untainted`. -/
theorem specConsHolds_false_of_untainted (c : ThresholdConsideration) (m : String → Option Bool)
    (hc : considerTainted c = false)
    (hm : ∀ id ∈ refTriggerIdsCons c, m id = none ∨ m id = some false) :
    specConsHolds m c = false := by
  match c with
  | .Trigger id =>
    rcases hm id (by simp [refTriggerIdsCons]) with h | h <;>
      simp [specConsHolds, h]
  | .NestedThreshold th =>
    rw [specConsHolds]
    exact specHolds_false_of_untainted th m (by simpa [considerTainted] using hc)
      (by simpa [refTriggerIdsCons] using hm)

/-- List-level version of `specHolds_false_of_untainted`. -/
theorem specCountTrue_zero_of_untainted (cs : List ThresholdConsideration)
    (m : String → Option Bool) (hany : anyConsiderTainted cs = false)
    (hm : ∀ id ∈ refTriggerIdsList cs, m id = none ∨ m id = some false) :
    specCountTrue m cs = 0 := by
  match cs with
  | [] => rfl
  | c :: rest =>
    rw [anyConsiderTainted] at hany
    have hc : considerTainted c = false := by
      cases h : considerTainted c
      · rfl
      · rw [h] at hany; simp at hany
    have hrest : anyConsiderTainted rest = false := by
      cases h : anyConsiderTainted rest
      · rfl
      · rw [h] at hany; simp at hany
    rw [specCountTrue,
      specConsHolds_false_of_untainted c m hc
        (fun id hid => hm id (by simp [refTriggerIdsList]; exact Or.inl hid)),
      specCountTrue_zero_of_untainted rest m hrest
        (fun id hid => hm id (by simp [refTriggerIdsList]; exact Or.inr hid))]
    simp

end

/-- Evaluating a non-inversion-tainted threshold on a map in which no
referenced trigger reads true never yields `Ok(true)`. -/
theorem evaluate_not_true_of_untainted {t : Threshold} {m : String → Option Bool}
    (ht : inversionTainted t = false)
    (hm : ∀ id ∈ refTriggerIds t, m id = none ∨ m id = some false) :
    t.evaluate m = .ok false ∨ ∃ i, t.evaluate m = .error i := by
  by_cases hcomp : ∀ id ∈ refTriggerIds t, (m id).isSome
  · left
    rw [evaluate_ok_of_complete t m hcomp]
    rw [specHolds_false_of_untainted t m ht hm]
  · right
    apply evaluate_error_of_missing
    push_neg at hcomp
    obtain ⟨id, hid, hnot⟩ := hcomp
    exact ⟨id, hid, Option.not_isSome_iff_eq_none.mp hnot⟩

/-- A successful pattern compilation registers exactly the engine's
compilation of the pattern's safe regex string. -/
theorem pattern_compile_regex {E : RegexEngine} {p : Pattern} {cp : CompiledPattern}
    (h : p.compile E = .ok cp) :
    E.compileRegex (p.get_as_safe_regex E) = some cp.regex := by
  obtain ⟨content, kind⟩ := p
  cases kind with
  | Raw =>
    rw [Pattern.compile] at h
    dsimp only at h ⊢
    cases hr : E.compileRegex (E.escape content) with
    | none => rw [hr] at h; cases h
    | some r =>
      rw [hr] at h
      injection h with h'
      subst h'
      exact hr
  | RegEx =>
    rw [Pattern.compile] at h
    dsimp only at h ⊢
    cases hr : E.compileRegex content with
    | none => rw [hr] at h; cases h
    | some r =>
      rw [hr] at h
      injection h with h'
      subst h'
      exact hr

/-- Successful trigger-list compilation relates triggers pointwise:
ids are preserved and each compiled matcher is the engine's compilation
of the trigger pattern's safe regex. -/
theorem compileTriggers_forall₂ {E : RegexEngine} {ts : List Trigger}
    {cts : List CompiledTrigger} (h : compileTriggers E ts = .ok cts) :
    List.Forall₂ (fun t ct => ct.id = t.id ∧
      E.compileRegex (t.pattern.get_as_safe_regex E) = some ct.pattern.regex) ts cts := by
  induction ts generalizing cts with
  | nil =>
    rw [compileTriggers] at h
    injection h with h'
    subst h'
    exact .nil
  | cons t rest ih =>
    rw [compileTriggers] at h
    cases hct : t.compile E with
    | error i => rw [hct] at h; cases h
    | ok ct =>
      rw [hct] at h
      cases hrest : compileTriggers E rest with
      | error i => rw [hrest] at h; cases h
      | ok crest =>
        rw [hrest] at h
        injection h with h'
        subst h'
        refine List.Forall₂.cons ?_ (ih hrest)
        rw [Trigger.compile] at hct
        cases hp : t.pattern.compile E with
        | error i => rw [hp] at hct; cases hct
        | ok cp =>
          rw [hp] at hct
          injection hct with hct'
          subst hct'
          exact ⟨rfl, pattern_compile_regex hp⟩

/-- Components of a successfully compiled query. -/
theorem query_compile_parts {E : RegexEngine} {q : Query} {cq : CompiledQuery}
    (h : q.compile E = .ok cq) :
    cq.response = q.response ∧ cq.scope.content = q.scope.content ∧
    cq.threshold = q.threshold ∧ cq.id = q.id ∧
    List.Forall₂ (fun t ct => ct.id = t.id ∧
      E.compileRegex (t.pattern.get_as_safe_regex E) = some ct.pattern.regex)
      q.triggers cq.triggers := by
  rw [Query.compile] at h
  cases hs : q.scope.compile E with
  | error i => rw [hs] at h; cases h
  | ok cscope =>
    rw [hs] at h
    cases hts : compileTriggers E q.triggers with
    | error i => rw [hts] at h; cases h
    | ok cts =>
      rw [hts] at h
      injection h with h'
      subst h'
      refine ⟨rfl, ?_, rfl, rfl, compileTriggers_forall₂ hts⟩
      rw [Scope.compile] at hs
      cases hp : q.scope.pattern.compile E with
      | error i => rw [hp] at hs; cases hs
      | ok cp =>
        rw [hp] at hs
        injection hs with hs'
        subst hs'
        rfl

/-- Pruning soundness for a single query: a compiled query whose
threshold is not inversion-tainted produces no output on a document on
whose scoped content none of its threshold-referenced trigger patterns
match. -/
theorem scan_single_empty_of_unfired (E : RegexEngine) (q : Query) (cq : CompiledQuery)
    (d : CompiledDocument) (hcq : q.compile E = .ok cq)
    (ht : inversionTainted q.threshold = false)
    (hfire : ∀ t ∈ q.triggers, t.id ∈ refTriggerIds q.threshold →
      ∀ r, E.compileRegex (t.pattern.get_as_safe_regex E) = some r →
        r.is_match (d.content q.scope.content) = false) :
    cq.scan_single d = ⟨[]⟩ := by
  obtain ⟨hresp, hcontent, hthresh, hid, htrig⟩ := query_compile_parts hcq
  rw [CompiledQuery.scan_single]
  by_cases hgate : cq.scope.pattern.quick_check (d.url.getD "") = true
  · rw [hgate]
    simp only [Bool.not_true, Bool.false_eq_true, if_false]
    obtain ⟨results, hpass⟩ := triggerPass_isSome cq.triggers (d.content cq.scope.content)
      (fun _ => none) []
    rw [hpass]
    have hmap : ∀ id ∈ refTriggerIds q.threshold,
        hitMapOf cq.triggers (d.content cq.scope.content) (fun _ => none) id = none ∨
        hitMapOf cq.triggers (d.content cq.scope.content) (fun _ => none) id = some false := by
      intro id hid'
      apply hitMapOf_no_hit (Or.inl rfl)
      intro ct hct hctid
      obtain ⟨t, htmem, htid, htreg⟩ := forall₂_mem_right htrig hct
      have htid' : t.id ∈ refTriggerIds q.threshold := by
        rw [← htid, hctid]
        exact hid'
      have := hfire t htmem htid' ct.pattern.regex htreg
      rw [CompiledTrigger.quick_check, CompiledPattern.quick_check]
      rw [← hcontent] at this
      exact this
    rw [hthresh]
    rcases evaluate_not_true_of_untainted ht hmap with hev | ⟨i, hev⟩
    · simp [hev]
    · simp [hev]
  · have hgate' : cq.scope.pattern.quick_check (d.url.getD "") = false := by
      cases hg : cq.scope.pattern.quick_check (d.url.getD "")
      · rfl
      · exact absurd hg hgate
    rw [hgate']
    simp

/-- A `Forall₂` relation covers every member of its left list. -/
theorem forall₂_mem_left {R : α → β → Prop} {l₁ : List α} {l₂ : List β}
    (h : List.Forall₂ R l₁ l₂) {a : α} (ha : a ∈ l₁) : ∃ b ∈ l₂, R a b := by
  induction h with
  | nil => cases ha
  | cons hR _ ih =>
    rcases List.mem_cons.mp ha with rfl | ha'
    · exact ⟨_, by simp, hR⟩
    · obtain ⟨b, hb, hab⟩ := ih ha'
      exact ⟨b, List.mem_cons_of_mem _ hb, hab⟩

/-- Pointwise successful compilation determines the compiled list. -/
theorem forall₂_compile_eq_map {E : RegexEngine} {l : List Query} {cqs : List CompiledQuery}
    (h : List.Forall₂ (fun q cq => q.compile E = .ok cq) l cqs) :
    cqs = l.map (compiledOf E) := by
  induction h with
  | nil => rfl
  | @cons q cq l' cqs' hqc _ ih =>
    rw [List.map_cons, ← ih]
    have : compiledOf E q = cq := by rw [compiledOf, hqc]
    rw [this]

/-- Membership in the reported match indices of a regex set. -/
theorem mem_matchIndices_iff {rs : RegexSet} {s : String} {j : Nat} :
    j ∈ rs.matchIndices s ↔ ∃ r, rs.patterns[j]? = some r ∧ r.is_match s = true := by
  rw [RegexSet.matchIndices]
  constructor
  · intro h
    obtain ⟨pr, hmem, rfl⟩ := List.mem_map.mp h
    have h1 := List.mem_filter.mp hmem
    exact ⟨pr.2, List.mem_enum_iff_getElem?.mp h1.1, h1.2⟩
  · rintro ⟨r, hget, hmatch⟩
    apply List.mem_map.mpr
    exact ⟨(j, r), List.mem_filter.mpr ⟨List.mem_enum_iff_getElem?.mpr hget, hmatch⟩, rfl⟩

/-- The pattern of the `k`-th optimized query's relevant trigger is
collected with owning index `k0 + k`. -/
theorem mem_expectedPairsFrom (E : RegexEngine) (l : List Query) (k0 k : Nat)
    (hk : k < (l.filter (fun q => !isAlwaysQuery q)).length)
    {s : String}
    (hs : s ∈ relevantPatternStrings E
      ((l.filter (fun q => !isAlwaysQuery q)).getD k dummyQuery)) :
    (s, k0 + k) ∈ expectedPairsFrom E k0 l := by
  induction l generalizing k0 k with
  | nil => simp at hk
  | cons q rest ih =>
    rw [expectedPairsFrom]
    by_cases ha : isAlwaysQuery q = true
    · rw [if_pos ha]
      rw [List.filter_cons_of_neg (by simp [ha])] at hk hs
      exact ih k0 k hk hs
    · have ha' : isAlwaysQuery q = false := by simpa using ha
      rw [if_neg ha]
      rw [List.filter_cons_of_pos (by simp [ha'])] at hk hs
      cases k with
      | zero =>
        rw [List.getD_cons_zero] at hs
        apply List.mem_append_left
        simpa using List.mem_map_of_mem (fun s => (s, k0)) hs
      | succ k' =>
        rw [List.getD_cons_succ] at hs
        apply List.mem_append_right
        have hk' : k' < (rest.filter (fun q => !isAlwaysQuery q)).length := by
          simpa using hk
        have := ih (k0 + 1) k' hk' hs
        have harith : k0 + 1 + k' = k0 + (k' + 1) := by omega
        rwa [harith] at this

/-- Every collected candidate target of a compiled group is a valid
query index. -/
theorem candidateTargets_lt {E : RegexEngine} {g : QueryGroup} {cg : CompiledQueryGroup}
    {d : CompiledDocument} {cs : List Nat} (hc : QueryGroup.compile E g = .ok cg)
    (hct : candidateTargets cg d = some cs) : ∀ i ∈ cs, i < cg.queries.length := by
  obtain ⟨hok, hq, ha, hidx, hset, hfeed⟩ := group_compile_components hc
  intro i hi
  obtain ⟨j, _, hji⟩ := forall₂_mem_right (mapMOption_eq_some_iff.mp hct) hi
  have himem : i ∈ cg.regex_collected_query_index := List.getElem?_mem hji
  rw [hidx] at himem
  obtain ⟨p, hp, rfl⟩ := List.mem_map.mp himem
  have := expectedPairsFrom_snd_lt E 0 g.queries p hp
  rw [hq]
  simpa using this

/-- Pruning soundness at the group level: a valid query index that is
not a collected candidate target contributes no outputs. -/
theorem queryOutputsAt_empty_of_not_candidate {E : RegexEngine} {g : QueryGroup}
    {cg : CompiledQueryGroup} {d : CompiledDocument} {cs : List Nat}
    (hc : QueryGroup.compile E g = .ok cg)
    (hct : candidateTargets cg d = some cs)
    {i : Nat} (hi : i < cg.queries.length) (hnc : i ∉ cs) :
    queryOutputsAt cg d i = [] := by
  obtain ⟨hok, hq, ha, hidx, hset, hfeed⟩ := group_compile_components hc
  have hilen : i < (g.queries.filter (fun q => !isAlwaysQuery q)).length := by
    rw [hq] at hi
    simpa using hi
  have hqgetd := List.getD_eq_getElem (g.queries.filter (fun q => !isAlwaysQuery q))
    dummyQuery hilen
  have hqmem : (g.queries.filter (fun q => !isAlwaysQuery q)).getD i dummyQuery ∈
      g.queries.filter (fun q => !isAlwaysQuery q) := by
    rw [hqgetd]
    exact List.getElem_mem _
  have hqfilter := List.mem_filter.mp hqmem
  have hqg := hqfilter.1
  have hnotalways : isAlwaysQuery ((g.queries.filter (fun q => !isAlwaysQuery q)).getD i
      dummyQuery) = false := by
    simpa using hqfilter.2
  have hqok := hok _ hqg
  have hgi : cg.queries[i]? = some (compiledOf E
      ((g.queries.filter (fun q => !isAlwaysQuery q)).getD i dummyQuery)) := by
    rw [hq, List.getElem?_map, List.getElem?_eq_getElem hilen, hqgetd]
    rfl
  have hcq : ((g.queries.filter (fun q => !isAlwaysQuery q)).getD i dummyQuery).compile E =
      .ok (compiledOf E ((g.queries.filter (fun q => !isAlwaysQuery q)).getD i dummyQuery)) := by
    cases hcc : ((g.queries.filter (fun q => !isAlwaysQuery q)).getD i dummyQuery).compile E with
    | error j => rw [hcc] at hqok; cases hqok
    | ok cqv => rw [compiledOf, hcc]
  set q := (g.queries.filter (fun q => !isAlwaysQuery q)).getD i dummyQuery with hqdef
  have htaint : inversionTainted q.threshold = false := by
    rw [isAlwaysQuery] at hnotalways
    cases h1 : inversionTainted q.threshold
    · rfl
    · rw [h1] at hnotalways; simp at hnotalways
  have hcontentT : q.scope.content = ScopeContent.Text := by
    rw [isAlwaysQuery] at hnotalways
    by_contra hne
    rw [decide_eq_true hne] at hnotalways
    simp at hnotalways
  have hfire : ∀ t ∈ q.triggers, t.id ∈ refTriggerIds q.threshold →
      ∀ r, E.compileRegex (t.pattern.get_as_safe_regex E) = some r →
        r.is_match (d.content q.scope.content) = false := by
    intro t htmem htid r hr
    cases hmm : r.is_match (d.content q.scope.content) with
    | false => rfl
    | true =>
      exfalso
      have hsrel : t.pattern.get_as_safe_regex E ∈ relevantPatternStrings E q := by
        rw [relevantPatternStrings]
        exact List.mem_map_of_mem _ (List.mem_filter.mpr ⟨htmem, by simpa using htid⟩)
      have hpair : (t.pattern.get_as_safe_regex E, i) ∈ expectedPairsFrom E 0 g.queries := by
        have := mem_expectedPairsFrom E g.queries 0 i hilen hsrel
        simpa using this
      obtain ⟨j, hjlen, hjget⟩ := List.getElem_of_mem hpair
      have hforall := mapMOption_eq_some_iff.mp hset
      have hlen2 := hforall.length_eq
      have hjlen1 : j < ((expectedPairsFrom E 0 g.queries).map Prod.fst).length := by
        simpa using hjlen
      have hjlen2 : j < cg.regex_collected.patterns.length := by
        rw [← hlen2]
        exact hjlen1
      rw [List.forall₂_iff_get] at hforall
      have hrel := hforall.2 j hjlen1 hjlen2
      have hfstj : ((expectedPairsFrom E 0 g.queries).map Prod.fst).get ⟨j, hjlen1⟩ =
          t.pattern.get_as_safe_regex E := by
        simp [List.get_eq_getElem, hjget]
      rw [hfstj] at hrel
      have hreq : cg.regex_collected.patterns.get ⟨j, hjlen2⟩ = r := by
        have h2 := hr.symm.trans hrel
        injection h2 with h3
        exact h3.symm
      have hjm : j ∈ cg.regex_collected.matchIndices (d.content cg.regex_feed) := by
        apply mem_matchIndices_iff.mpr
        refine ⟨r, ?_, ?_⟩
        · rw [List.getElem?_eq_getElem hjlen2, ← hreq]
          rfl
        · rw [hfeed, ← hcontentT]
          exact hmm
      obtain ⟨b, hb, hbrel⟩ := forall₂_mem_left (mapMOption_eq_some_iff.mp hct) hjm
      have hidxj : cg.regex_collected_query_index[j]? = some i := by
        rw [hidx, List.getElem?_map, List.getElem?_eq_getElem hjlen, hjget]
        rfl
      rw [hidxj] at hbrel
      injection hbrel with hb'
      subst hb'
      exact hnc hb
  have hempty := scan_single_empty_of_unfired E q (compiledOf E q) d hcq htaint hfire
  simp [queryOutputsAt, hgi, hempty]

/-- `flatMap` ignores elements on which the function vanishes. -/
theorem flatMap_filter_of_vanish {l : List α} {p : α → Bool} {f : α → List β}
    (h : ∀ a ∈ l, p a = false → f a = []) :
    (l.filter p).flatMap f = l.flatMap f := by
  induction l with
  | nil => rfl
  | cons a rest ih =>
    rw [List.filter_cons]
    have hrest := ih (fun b hb => h b (List.mem_cons_of_mem _ hb))
    by_cases hp : p a = true
    · rw [if_pos hp, List.flatMap_cons, List.flatMap_cons, hrest]
    · have hp' : p a = false := by
        cases hpa : p a
        · rfl
        · exact absurd hpa hp
      rw [if_neg (by simp [hp']), List.flatMap_cons, h a (by simp) hp', hrest]
      simp

/-- `flatMap` over the index range of a list equals `flatMap` over the
list. -/
theorem flatMap_range_match (l : List α) (f : α → List β) :
    (List.range l.length).flatMap
      (fun i => match l[i]? with | some a => f a | none => []) = l.flatMap f := by
  induction l with
  | nil => rfl
  | cons a rest ih =>
    rw [List.length_cons, List.range_succ_eq_map, List.flatMap_cons, List.flatMap_map,
      List.flatMap_cons]
    congr 1
    · simp
    · exact (List.flatMap_congr (fun i _ => by simp)).trans ih

/-- Candidate-target collection never takes the defensive early return
on a compiled group. -/
theorem candidateTargets_isSome_of_ok {E : RegexEngine} {g : QueryGroup}
    {cg : CompiledQueryGroup} (hc : QueryGroup.compile E g = .ok cg) (d : CompiledDocument) :
    (candidateTargets cg d).isSome := by
  obtain ⟨hok, hq, ha, hidx, hset, hfeed⟩ := group_compile_components hc
  have hlen : cg.regex_collected_query_index.length = cg.regex_collected.patterns.length := by
    have h2 := (mapMOption_eq_some_iff.mp hset).length_eq
    rw [hidx]
    simp only [List.length_map] at h2 ⊢
    exact h2
  apply mapMOption_isSome
  intro j hj
  have hjlt : j < cg.regex_collected_query_index.length := by
    rw [hlen]
    exact matchIndices_lt _ _ j hj
  rw [List.getElem?_eq_getElem hjlt]
  rfl

/-- **C1**: the optimizer changes no output content: for every group
`cg` produced by `QueryGroup::compile` from queries `g.queries`, every
compiled document `d`, and every enumeration `order` of the candidate
set that the `HashSet` iteration can produce, the multiset of outputs
of `cg.scan_single(d)` equals the multiset obtained by concatenating
the outputs of scanning `d` with each individually compiled query. -/
theorem group_scan_equiv (E : RegexEngine) (g : QueryGroup) (cg : CompiledQueryGroup)
    (cqs : List CompiledQuery) (d : CompiledDocument) (order : List Nat)
    (hc : QueryGroup.compile E g = .ok cg)
    (hcqs : List.Forall₂ (fun q cq => q.compile E = .ok cq) g.queries cqs)
    (ho : IsValidOrder cg d order) :
    ((cg.scan_single_with order d).outputs).Perm
      (cqs.flatMap fun cq => (cq.scan_single d).outputs) := by
  obtain rfl := forall₂_compile_eq_map hcqs
  cases hct : candidateTargets cg d with
  | none =>
    have h0 := candidateTargets_isSome_of_ok hc d
    rw [hct] at h0
    cases h0
  | some cs =>
    unfold IsValidOrder at ho
    rw [hct] at ho
    obtain ⟨hnodup, hsub1, hsub2⟩ := ho
    have hcslt := candidateTargets_lt hc hct
    have hlt : ∀ i ∈ order, i < cg.queries.length := fun i hi => hcslt i (hsub1 i hi)
    rw [scan_single_with_eq hct hlt]
    obtain ⟨hok, hq, ha, hidx, hset, hfeed⟩ := group_compile_components hc
    have hperm_order : order.Perm
        ((List.range cg.queries.length).filter fun i => decide (i ∈ cs)) := by
      refine (List.perm_ext_iff_of_nodup hnodup ((List.nodup_range _).filter _)).mpr ?_
      intro i
      simp only [List.mem_filter, List.mem_range, decide_eq_true_eq]
      constructor
      · intro h
        exact ⟨hcslt i (hsub1 i h), hsub1 i h⟩
      · rintro ⟨-, h2⟩
        exact hsub2 i h2
    have hstep2 : (((List.range cg.queries.length).filter fun i => decide (i ∈ cs)).flatMap
        (queryOutputsAt cg d)) = (List.range cg.queries.length).flatMap (queryOutputsAt cg d) := by
      apply flatMap_filter_of_vanish
      intro i hi hfalse
      have hnc : i ∉ cs := by simpa using hfalse
      exact queryOutputsAt_empty_of_not_candidate hc hct (by simpa using hi) hnc
    have hstep3 : (List.range cg.queries.length).flatMap (queryOutputsAt cg d) =
        cg.queries.flatMap fun query => (query.scan_single d).outputs := by
      have h5 := flatMap_range_match cg.queries fun query => (query.scan_single d).outputs
      rw [← h5]
      exact List.flatMap_congr fun i _ => by
        rw [queryOutputsAt]
        cases cg.queries[i]? <;> rfl
    have hcandPerm : (order.flatMap (queryOutputsAt cg d)).Perm
        ((g.queries.filter fun q => !isAlwaysQuery q).flatMap
          fun q => ((compiledOf E q).scan_single d).outputs) := by
      have h4 : cg.queries.flatMap (fun query => (query.scan_single d).outputs) =
          (g.queries.filter fun q => !isAlwaysQuery q).flatMap
            (fun q => ((compiledOf E q).scan_single d).outputs) := by
        rw [hq, List.flatMap_map]
      rw [← h4, ← hstep3, ← hstep2]
      exact hperm_order.flatMap_right _
    have halways : (cg.always_run_queries.flatMap fun query => (query.scan_single d).outputs) =
        (g.queries.filter isAlwaysQuery).flatMap
          (fun q => ((compiledOf E q).scan_single d).outputs) := by
      rw [ha, List.flatMap_map]
    have hrhs : ((g.queries.map (compiledOf E)).flatMap fun cq => (cq.scan_single d).outputs) =
        g.queries.flatMap fun q => ((compiledOf E q).scan_single d).outputs :=
      List.flatMap_map _ _ _
    rw [hrhs, halways]
    have hfilters : ((g.queries.filter fun q => !isAlwaysQuery q) ++
        g.queries.filter isAlwaysQuery).Perm g.queries := by
      have hp := List.filter_append_perm (fun q => !isAlwaysQuery q) g.queries
      have heq : (g.queries.filter fun a => !(!isAlwaysQuery a)) =
          g.queries.filter isAlwaysQuery :=
        List.filter_congr (fun a _ => by simp)
      rwa [heq] at hp
    have hjoin := (hfilters.flatMap_right
      fun q => ((compiledOf E q).scan_single d).outputs)
    rw [List.flatMap_append] at hjoin
    exact (hcandPerm.append_right _).trans hjoin

/-- Witness for C1: the two-query group scanned over the `alpha`
document yields the same output multiset as scanning with each
individually compiled query. -/
theorem group_scan_equiv_witness :
    (((groupCompiledOf litEngine wGroup2).scan_single_with [0] wDocAlpha).outputs).Perm
      ((wGroup2.queries.map (compiledOf litEngine)).flatMap
        fun cq => (cq.scan_single wDocAlpha).outputs) :=
  group_scan_equiv litEngine wGroup2 (groupCompiledOf litEngine wGroup2)
    (wGroup2.queries.map (compiledOf litEngine)) wDocAlpha [0] rfl
    (List.Forall₂.cons rfl (List.Forall₂.cons rfl List.Forall₂.nil))
    (by
      show IsValidOrder (groupCompiledOf litEngine wGroup2) wDocAlpha [0]
      exact (⟨by decide, by decide, by decide⟩ :
        ([0] : List Nat).Nodup ∧ (∀ i ∈ ([0] : List Nat), i ∈ ([0] : List Nat)) ∧
          ∀ i ∈ ([0] : List Nat), i ∈ ([0] : List Nat)))

/-- **C5** (amended): for every compiled group and document, the
outputs are the candidate-query outputs followed by the always-run
outputs, with the always-run queries evaluated in the order of
`always_run_queries`; the candidate queries, however, are evaluated in
an arbitrary duplicate-free enumeration of the candidate set (the
`HashSet<usize>` iteration order), which need not be ascending by
index. -/
theorem group_scan_order (E : RegexEngine) (g : QueryGroup) (cg : CompiledQueryGroup)
    (d : CompiledDocument) (order : List Nat)
    (hc : QueryGroup.compile E g = .ok cg) (ho : IsValidOrder cg d order) :
    (cg.scan_single_with order d).outputs =
      order.flatMap (queryOutputsAt cg d) ++
        cg.always_run_queries.flatMap fun query => (query.scan_single d).outputs := by
  cases hct : candidateTargets cg d with
  | none =>
    have h0 := candidateTargets_isSome_of_ok hc d
    rw [hct] at h0
    cases h0
  | some cs =>
    unfold IsValidOrder at ho
    rw [hct] at ho
    obtain ⟨hnodup, hsub1, hsub2⟩ := ho
    have hlt : ∀ i ∈ order, i < cg.queries.length :=
      fun i hi => candidateTargets_lt hc hct i (hsub1 i hi)
    rw [scan_single_with_eq hct hlt]

/-- Counterexample for C5: on a compiled group with two optimizable
queries that both fire on the document, the enumeration `[1, 0]` is a
valid `HashSet` iteration order of the candidate set `{0, 1}`, and the
resulting outputs list query 1's output before query 0's — candidate
queries are not evaluated in ascending order of their index. -/
theorem group_scan_order_counterexample :
    IsValidOrder (groupCompiledOf litEngine wGroupTwoOpt) wDocBoth [1, 0] ∧
    ((groupCompiledOf litEngine wGroupTwoOpt).scan_single_with [1, 0] wDocBoth).outputs =
      [⟨[.Url (some "http://x")], .Full, none, some "q1"⟩,
        ⟨[.Url (some "http://x")], .Full, none, some "q0"⟩] := by
  constructor
  · show IsValidOrder (groupCompiledOf litEngine wGroupTwoOpt) wDocBoth [1, 0]
    exact (⟨by decide, by decide, by decide⟩ :
      ([1, 0] : List Nat).Nodup ∧ (∀ i ∈ ([1, 0] : List Nat), i ∈ ([0, 1] : List Nat)) ∧
        ∀ i ∈ ([0, 1] : List Nat), i ∈ ([1, 0] : List Nat))
  · decide

/-- Witness for C5's amended statement at the same concrete group,
document, and iteration order. -/
theorem group_scan_order_witness :
    ((groupCompiledOf litEngine wGroupTwoOpt).scan_single_with [1, 0] wDocBoth).outputs =
      ([1, 0] : List Nat).flatMap
        (queryOutputsAt (groupCompiledOf litEngine wGroupTwoOpt) wDocBoth) ++
        (groupCompiledOf litEngine wGroupTwoOpt).always_run_queries.flatMap
          fun query => (query.scan_single wDocBoth).outputs :=
  group_scan_order litEngine wGroupTwoOpt (groupCompiledOf litEngine wGroupTwoOpt)
    wDocBoth [1, 0] rfl
    (by
      show IsValidOrder (groupCompiledOf litEngine wGroupTwoOpt) wDocBoth [1, 0]
      exact (⟨by decide, by decide, by decide⟩ :
        ([1, 0] : List Nat).Nodup ∧ (∀ i ∈ ([1, 0] : List Nat), i ∈ ([0, 1] : List Nat)) ∧
          ∀ i ∈ ([0, 1] : List Nat), i ∈ ([1, 0] : List Nat)))

/-- The trivial group built by `From<CompiledQuery>` produces no output
on any document: its regex set holds the empty pattern, which matches
every haystack, but `regex_collected_query_index` is empty, so the
defensive lookup in `scan_single` always takes the early empty
return — before the always-run query is ever evaluated. -/
theorem fromQuery_scan_empty (E : RegexEngine) (q : CompiledQuery) (order : List Nat)
    (d : CompiledDocument) :
    (CompiledQueryGroup.fromQuery E q).scan_single_with order d = ⟨[]⟩ := by
  rw [CompiledQueryGroup.scan_single_with]
  have hmatch : ((E.compileRegex "").get E.empty_some).is_match
      (d.content (CompiledQueryGroup.fromQuery E q).regex_feed) = true := by
    rw [Regex.is_match, E.empty_matches ((E.compileRegex "").get E.empty_some) _
      (Option.some_get E.empty_some).symm]
    rfl
  have hms : (CompiledQueryGroup.fromQuery E q).regex_collected.matchIndices
      (d.content (CompiledQueryGroup.fromQuery E q).regex_feed) = [0] := by
    rw [RegexSet.matchIndices]
    rw [show (CompiledQueryGroup.fromQuery E q).regex_collected.patterns =
      [(E.compileRegex "").get E.empty_some] from rfl]
    rw [List.enum]
    simp [hmatch]
  have hct : candidateTargets (CompiledQueryGroup.fromQuery E q) d = none := by
    rw [candidateTargets, hms]
    rfl
  rw [hct]

/-- **C4** (code bug): the trivial group `CompiledQueryGroup::from(q)`
does not reproduce `q`'s outputs.  At the failing input, the query
itself produces one output while the trivial group produces none,
because the empty pattern in `regex_collected` fires on every document
and its index lookup in the empty `regex_collected_query_index` takes
the defensive early return. -/
theorem fromQuery_scan_divergence :
    ((CompiledQueryGroup.fromQuery litEngine (compiledOf litEngine wQ0)).scan_single_with
        [] wDocAlpha).outputs = [] ∧
    ((compiledOf litEngine wQ0).scan_single wDocAlpha).outputs =
      [⟨[.Url (some "http://x")], .Full, none, some "q0"⟩] := by
  constructor
  · rw [fromQuery_scan_empty]
  · decide

/-- Pattern compilation failures are always `Error`-severity. -/
theorem pattern_compile_error_isError {E : RegexEngine} {p : Pattern} {i : Issue}
    (h : p.compile E = .error i) : i.isError = true := by
  obtain ⟨content, kind⟩ := p
  cases kind with
  | Raw =>
    rw [Pattern.compile] at h
    dsimp only at h
    cases hr : E.compileRegex (E.escape content) with
    | some r => rw [hr] at h; cases h
    | none =>
      rw [hr] at h
      injection h with h'
      subst h'
      rfl
  | RegEx =>
    rw [Pattern.compile] at h
    dsimp only at h
    cases hr : E.compileRegex content with
    | some r => rw [hr] at h; cases h
    | none =>
      rw [hr] at h
      injection h with h'
      subst h'
      rfl

/-- Trigger-list compilation failures are always `Error`-severity. -/
theorem compileTriggers_error_isError {E : RegexEngine} {ts : List Trigger} {i : Issue}
    (h : compileTriggers E ts = .error i) : i.isError = true := by
  induction ts with
  | nil => rw [compileTriggers] at h; cases h
  | cons t rest ih =>
    rw [compileTriggers] at h
    cases hct : t.compile E with
    | error j =>
      rw [hct] at h
      injection h with h'
      subst h'
      rw [Trigger.compile] at hct
      cases hp : t.pattern.compile E with
      | error k =>
        rw [hp] at hct
        injection hct with hct'
        subst hct'
        exact pattern_compile_error_isError hp
      | ok cp => rw [hp] at hct; cases hct
    | ok ct =>
      rw [hct] at h
      cases hrest : compileTriggers E rest with
      | error j =>
        rw [hrest] at h
        injection h with h'
        subst h'
        exact ih hrest
      | ok crest => rw [hrest] at h; cases h

/-- Query compilation failures are always `Error`-severity. -/
theorem query_compile_error_isError {E : RegexEngine} {q : Query} {i : Issue}
    (h : q.compile E = .error i) : i.isError = true := by
  rw [Query.compile] at h
  cases hs : q.scope.compile E with
  | error j =>
    rw [hs] at h
    injection h with h'
    subst h'
    rw [Scope.compile] at hs
    cases hp : q.scope.pattern.compile E with
    | error k =>
      rw [hp] at hs
      injection hs with hs'
      subst hs'
      exact pattern_compile_error_isError hp
    | ok cp => rw [hp] at hs; cases hs
  | ok cscope =>
    rw [hs] at h
    cases hts : compileTriggers E q.triggers with
    | error j =>
      rw [hts] at h
      injection h with h'
      subst h'
      exact compileTriggers_error_isError hts
    | ok cts => rw [hts] at h; cases h

/-- A compilation failure always surfaces in the validation result. -/
theorem validate_mem_of_compile_error {E : RegexEngine} {q : Query} {i : Issue}
    (hc : q.compile E = .error i) :
    ∃ issues, q.validate E = some issues ∧ i ∈ issues := by
  rw [Query.validate, hc]
  dsimp only
  rw [if_pos (by simp)]
  exact ⟨_, rfl, by simp⟩

/-- **C6** (amended): if `Query::validate` produces no Error-severity
issue then `Query::compile` succeeds.  (The converse of the original
iff is false — see the counterexample: compilation checks only the
patterns, while validation additionally rejects invalid responses and
dangling trigger references.) -/
theorem validate_no_error_compile_ok (E : RegexEngine) (q : Query)
    (h : ∀ issues, q.validate E = some issues → ∀ i ∈ issues, i.isError = false) :
    (q.compile E).isOk = true := by
  cases hc : q.compile E with
  | ok cq => rfl
  | error i =>
    exfalso
    obtain ⟨issues, hval, hmem⟩ := validate_mem_of_compile_error hc
    have hfalse := h issues hval i hmem
    rw [query_compile_error_isError hc] at hfalse
    cases hfalse

/-- Counterexample for C6: a query whose patterns compile but whose
`Partial` response illegally includes `Url` — compilation succeeds
while validation reports an Error-severity issue, refuting the claimed
iff. -/
theorem validate_no_error_compile_ok_counterexample :
    (wQBadResp.compile litEngine).isOk = true ∧
    wQBadResp.validate litEngine =
      some [Issue.Error "include `Url` is not allowed in partial responses"] ∧
    Issue.isError (Issue.Error "include `Url` is not allowed in partial responses") = true := by
  refine ⟨by decide, by decide, rfl⟩

/-- Witness for C6's amended statement: a validating query compiles. -/
theorem validate_no_error_compile_ok_witness :
    (wQ0.compile litEngine).isOk = true :=
  validate_no_error_compile_ok litEngine wQ0 (by decide)

/-- **C7** (code bug): `Query::validate` performs no duplicate-id
check: the query below has two distinct triggers that share the id
"A", yet validation reports no issue at all, contradicting the
requirement that duplicate trigger ids be flagged with an
Error-severity issue. -/
theorem validate_missing_duplicate_check :
    wQDup.triggers.length = 2 ∧
    wQDup.triggers.map Trigger.id = ["A", "A"] ∧
    wQDup.triggers[0]? ≠ wQDup.triggers[1]? ∧
    wQDup.validate litEngine = none := by
  refine ⟨rfl, rfl, by decide, by decide⟩

/-- **C8**: the scope gate: when the query's scope pattern does not
match the document's URL (or the empty string when the URL is absent),
`CompiledQuery::scan_single` produces no output, regardless of trigger
matches. -/
theorem scope_gate (q : CompiledQuery) (d : CompiledDocument)
    (h : q.scope.pattern.quick_check (d.url.getD "") = false) :
    q.scan_single d = ⟨[]⟩ := by
  rw [CompiledQuery.scan_single, h]
  simp

/-- Witness for C8: a document without a URL is gated by a non-matching
scope pattern even though the query's threshold would otherwise match
unconditionally. -/
theorem scope_gate_witness : wCompiledScopeQuery.scan_single wDocNoUrl = ⟨[]⟩ :=
  scope_gate wCompiledScopeQuery wDocNoUrl (by decide)

/-- **C9**: `CompiledPattern::full_check` returns `None` exactly when
the pattern does not match the string (`quick_check` is false), and
otherwise returns a `PatternMatch` whose `relevant` is the
(start-inclusive, end-exclusive) offset pair of the leftmost match
reported by the matcher's `find` and whose `excerpt` is the searched
string itself. -/
theorem full_check_spec (cp : CompiledPattern) (s : String) :
    (cp.full_check s = none ↔ cp.quick_check s = false) ∧
    ∀ a b, cp.regex.find s = some (a, b) →
      cp.full_check s = some ⟨s, (a, b)⟩ := by
  constructor
  · rw [CompiledPattern.full_check, CompiledPattern.quick_check, Regex.is_match]
    cases h : cp.regex.find s <;> simp
  · intro a b h
    rw [CompiledPattern.full_check, h]

/-- Witness for C9: the literal pattern `b` on `"abc"` yields the whole
string as excerpt with the leftmost-match span `(1, 2)`. -/
theorem full_check_spec_witness :
    CompiledPattern.full_check ⟨litRegex "b"⟩ "abc" = some ⟨"abc", (1, 2)⟩ :=
  (full_check_spec ⟨litRegex "b"⟩ "abc").2 1 2 (by decide)

end IEQL
